import Mathlib

/-!
Verification of the hamilton node-expansion engine
(`hamilton/function_modifiers/expanders.py`).

The Python source is shallowly embedded.  Python dicts become association
lists with Python dict semantics: assignment keeps the position of an
existing key and otherwise appends at the end.  Callables become functions
from keyword-argument association lists to `Except Err Val`.  Python
exceptions become values of the `Err` type, whose constructors mirror the
exception classes raised by the source.  Types that the source imports from
elsewhere in the repository (`hamilton.node.Node`, the dependency classes
from `hamilton.function_modifiers.dependencies`, the dataframe registry) are
modelled from the spec; each such definition carries a doc comment saying so.
-/

set_option maxHeartbeats 1000000

namespace Hamilton

/-- A pandas column label as it occurs in the source: either a plain string,
or a (name, documentation) tuple of strings, which can become a column label
through the fill path of `extract_columns.expand_node.df_generator`. -/
inductive Label where
  | str (s : String)
  | pair (s d : String)
deriving DecidableEq, Repr

/-- Python runtime values that flow through the engine: scalars, None,
series (one dataframe column), dataframes (ordered labelled columns) and
dicts with string keys. -/
inductive Val where
  | vint (n : Int)
  | vstr (s : String)
  | vnone
  | vseries (xs : List Val)
  | vdf (cols : List (Label × Val))
  | vdict (fields : List (String × Val))

/-- The Python exceptions raised by the source, by exception class. -/
inductive Err where
  | invalidDecorator (msg : String)
  | valueError (msg : String)
  | keyError (key : String)
  | indexError (msg : String)
  | typeError (msg : String)
  | templateUnsupported (name : String)
deriving DecidableEq, Repr

/-- The Python exception class of an error, for comparing error kinds. -/
def Err.kindName : Err → String
  | .invalidDecorator _ => "InvalidDecoratorException"
  | .valueError _ => "ValueError"
  | .keyError _ => "KeyError"
  | .indexError _ => "IndexError"
  | .typeError _ => "TypeError"
  | .templateUnsupported _ => "TemplateUnsupported"

/-- The exception class of the error of a failed computation, if failed. -/
def errKind {α : Type} : Except Err α → Option String
  | .error e => some e.kindName
  | .ok _ => none

/-- Python type annotations, as an explicit closed set of type tags (spec
section 9 recommends exactly this modelling for return-type dispatch). -/
inductive Ty where
  | tint
  | tstr
  | tfloat
  | tany
  | series
  | dataframe
  | dict
  | dictOf (k v : Ty)
deriving DecidableEq, Repr

/-! ### Association lists with Python dict semantics -/

/-- Python dict lookup: first (and, for a real dict, only) binding wins. -/
def getA {α : Type} (k : String) : List (String × α) → Option α
  | [] => none
  | p :: t => if p.1 = k then some p.2 else getA k t

/-- The keys of an association list, in order. -/
def keysA {α : Type} (l : List (String × α)) : List String := l.map Prod.fst

/-- Python dict assignment `d[k] = v`: replaces the value in place if the
key is present, otherwise appends the new binding at the end. -/
def dinsert {α : Type} (k : String) (v : α) : List (String × α) → List (String × α)
  | [] => [(k, v)]
  | p :: t => if p.1 = k then (k, v) :: t else p :: dinsert k v t

/-- Python `d.pop(k)`: returns the value and the dict without the binding,
or `none` (a `KeyError` at the call site) when the key is absent. -/
def popA {α : Type} (k : String) : List (String × α) → Option (α × List (String × α))
  | [] => none
  | p :: t =>
    if p.1 = k then some (p.2, t)
    else
      match popA k t with
      | none => none
      | some (v, t2) => some (v, p :: t2)

/-- Python `dict(base); base.update(upd)`: every binding of `upd` is
assigned into `base`, in order. -/
def updateA {α : Type} (base upd : List (String × α)) : List (String × α) :=
  upd.foldl (fun acc q => dinsert q.1 q.2 acc) base

/-! ### Dependency specification (hamilton.function_modifiers.dependencies) -/

/-- Modelled from the spec: the dependency specification imported by the
source from `hamilton.function_modifiers.dependencies` (not under src/).  A
tagged value that is either a literal constant, produced by `value(...)`,
or a reference to another node's output, produced by `source(...)`; spec
section 3 "Dependency". -/
inductive ParametrizedDependency where
  | literal (v : Val)
  | upstream (src : String)

/-- The upstream (reference) subset of a parameter mapping, each parameter
paired with the referenced source name; mirrors the `upstream_dependencies`
dict comprehension of `parameterize.expand_node`. -/
def upsOf (pz : List (String × ParametrizedDependency)) : List (String × String) :=
  pz.filterMap (fun q =>
    match q.2 with
    | .upstream s => some (q.1, s)
    | .literal _ => none)

/-- The literal subset of a parameter mapping, each parameter paired with
the literal value; mirrors the `literal_dependencies` dict comprehension of
`parameterize.expand_node`. -/
def litsOf (pz : List (String × ParametrizedDependency)) : List (String × Val) :=
  pz.filterMap (fun q =>
    match q.2 with
    | .literal v => some (q.1, v)
    | .upstream _ => none)

/-! ### Node (hamilton.node.Node) -/

/-- Keyword arguments of a node callable. -/
abbrev Kwargs := List (String × Val)

/-- Modelled from the spec: the node representation imported by the source
from `hamilton.node` (not under src/); spec sections 3 and 6 describe its
contract: name, declared output type, documentation, callable body, mapping
of parameter name to required input type, and a free-form tag mapping. -/
structure Node where
  name : String
  type : Ty
  doc_string : Option String
  callabl : Kwargs → Except Err Val
  input_types : List (String × Ty)
  tags : List (String × String)

/-- Modelled from the spec: `Node.copy_with` replaces only the callable
(spec section 6, node contract: "a copy/override operation that replaces
only the callable"). -/
def Node.copyWith (n : Node) (c : Kwargs → Except Err Val) : Node :=
  { n with callabl := c }

/-! ### Docstring templating (`parameterize.format_doc_string`)

The source calls the Python builtin `str.format_map` with an `IdentityDict`
whose `__missing__` returns the key itself.  `pyFmtM` embeds `format_map`
for the fragment the source exercises: literal text, doubled-brace escapes,
and simple named replacement fields.  Field names using the attribute,
index, conversion or format-spec syntax of the format mini-language are
mapped to the `templateUnsupported` error and are excluded by hypothesis in
the general theorems below; empty or all-digit field names are positional
and raise IndexError under `format_map`, as in Python. -/

/-- The left curly brace character. -/
def lbraceC : Char := Char.ofNat 123

/-- The right curly brace character. -/
def rbraceC : Char := Char.ofNat 125

/-- Prepend a character to the result of a format computation. -/
def emapCons (c : Char) : Except Err (List Char) → Except Err (List Char)
  | .error e => .error e
  | .ok l => .ok (c :: l)

/-- Prepend a string of characters to the result of a format computation. -/
def emapApp (s : List Char) : Except Err (List Char) → Except Err (List Char)
  | .error e => .error e
  | .ok l => .ok (s ++ l)

/-- Characters that switch the format mini-language into attribute access,
indexing, conversion or format-spec parsing, which the embedding does not
model (the source never produces them). -/
def isSpecialFieldChar (c : Char) : Bool :=
  c = '.' || c = '[' || c = ']' || c = '!' || c = ':' || c = lbraceC

/-- The replacement text for one field name under `format_map` with the
IdentityDict of `parameterize.format_doc_string`: a known key formats to its
value, a missing key formats to itself (the quick hack `__missing__`), an
empty or all-digit name is positional and raises IndexError. -/
def fieldValue (m : List (String × String)) (nameL : List Char) : Except Err (List Char) :=
  if nameL.isEmpty then
    .error (.indexError "Replacement index 0 out of range for positional args tuple")
  else if nameL.all Char.isDigit then
    .error (.indexError "Replacement index out of range for positional args tuple")
  else if nameL.any isSpecialFieldChar then
    .error (.templateUnsupported (String.mk nameL))
  else
    match getA (String.mk nameL) m with
    | some v => .ok v.data
    | none => .ok nameL

/-- Scanner state of the format-string parser. -/
inductive FmtMode where
  | text
  | sawL
  | sawR
  | inField (acc : List Char)

/-- One-character-at-a-time embedding of `str.format_map` over the
IdentityDict semantics; `acc` holds the reversed field name read so far. -/
def pyFmtM (m : List (String × String)) : FmtMode → List Char → Except Err (List Char)
  | .text, [] => .ok []
  | .sawL, [] => .error (.valueError "Single left brace encountered in format string")
  | .sawR, [] => .error (.valueError "Single right brace encountered in format string")
  | .inField _, [] => .error (.valueError "expected right brace before end of string")
  | .text, c :: rest =>
    if c = lbraceC then pyFmtM m .sawL rest
    else if c = rbraceC then pyFmtM m .sawR rest
    else emapCons c (pyFmtM m .text rest)
  | .sawL, c :: rest =>
    if c = lbraceC then emapCons lbraceC (pyFmtM m .text rest)
    else if c = rbraceC then
      match fieldValue m [] with
      | .error e => .error e
      | .ok v => emapApp v (pyFmtM m .text rest)
    else pyFmtM m (.inField [c]) rest
  | .sawR, c :: rest =>
    if c = rbraceC then emapCons rbraceC (pyFmtM m .text rest)
    else .error (.valueError "Single right brace encountered in format string")
  | .inField acc, c :: rest =>
    if c = rbraceC then
      match fieldValue m acc.reverse with
      | .error e => .error e
      | .ok v => emapApp v (pyFmtM m .text rest)
    else if c = lbraceC then
      .error (.valueError "unexpected left brace in field name")
    else pyFmtM m (.inField (c :: acc)) rest

/-- `str.format_map` on a string, with IdentityDict lookup in `m`. -/
def pyFormat (m : List (String × String)) (s : String) : Except Err String :=
  match pyFmtM m .text s.data with
  | .error e => .error e
  | .ok l => .ok (String.mk l)

/-! ### The parameterize decorator -/

/-- The state of a constructed `parameterize` decorator: the per-output
parameter mappings (tuple docstrings already stripped, as `__init__` does)
and the explicitly specified docstrings. -/
structure Parameterize where
  parametrization : List (String × List (String × ParametrizedDependency))
  specified_docstrings : List (String × String)

/-- Python `str` of a value, used when a literal is substituted into a
docstring template.  Container values are rendered approximately; no claim
depends on their rendering. -/
def Val.pyStr : Val → String
  | .vint n => toString n
  | .vstr s => s
  | .vnone => "None"
  | .vseries _ => "<series>"
  | .vdf _ => "<dataframe>"
  | .vdict _ => "<dict>"

/-- The mapping handed to `format_map` by `format_doc_string`, built the way
the source builds its `IdentityDict`: the reserved `output_name` keyword
bound to the output name, then the merge of the upstream bindings (each
parameter to its referenced source name) and the literal bindings (each
parameter to the str of its value, literals overriding as in the dict-merge
expression) unpacked as further keyword arguments.  A parameter itself named
`output_name` makes the call receive the keyword `output_name` twice, which
is a TypeError in Python. -/
def mkFormatMapping (outputName : String) (pz : List (String × ParametrizedDependency)) :
    Except Err (List (String × String)) :=
  if (keysA (updateA (upsOf pz)
      ((litsOf pz).map (fun q => (q.1, q.2.pyStr))))).contains "output_name" then
    .error (.typeError
      "format_doc_string got multiple values for keyword argument output_name")
  else
    .ok (("output_name", outputName)
      :: updateA (upsOf pz) ((litsOf pz).map (fun q => (q.1, q.2.pyStr))))

/-- `parameterize.format_doc_string`: an explicitly specified docstring wins,
a `None` template stays `None`, otherwise the template is formatted with the
IdentityDict mapping (`self.parametrization[output_name]` raises KeyError
when the output is unknown). -/
def formatDocString (p : Parameterize) (doc : Option String) (outputName : String) :
    Except Err (Option String) :=
  match getA outputName p.specified_docstrings with
  | some d => .ok (some d)
  | none =>
    match doc with
    | none => .ok none
    | some tpl =>
      match getA outputName p.parametrization with
      | none => .error (.keyError outputName)
      | some pz =>
        match mkFormatMapping outputName pz with
        | .error e => .error e
        | .ok fm =>
          match pyFormat fm tpl with
          | .error e => .error e
          | .ok s => .ok (some s)

/-- The kwargs-rewriting loop of `replacement_function`: for each upstream
dependency, `kwargs[parameter] = kwargs.pop(replacement.source)`, a missing
source being a KeyError. -/
def applyUps : List (String × String) → Kwargs → Except Err Kwargs
  | [], kw => .ok kw
  | q :: rest, kw =>
    match popA q.2 kw with
    | none => .error (.keyError q.2)
    | some (v, kw2) => applyUps rest (dinsert q.1 v kw2)

/-- `parameterize.expand_node.replacement_function`: renames reference-bound
kwargs back to the original parameter names, then assigns every literal
value under its original parameter name, then calls the wrapped callable. -/
def replacementFunction (callab : Kwargs → Except Err Val) (ups : List (String × String))
    (lits : List (String × Val)) (kwargs : Kwargs) : Except Err Val :=
  match applyUps ups kwargs with
  | .error e => .error e
  | .ok kw2 => callab (updateA kw2 lits)

/-- The derived input-type mapping built by `parameterize.expand_node`:
iterating the base node's input types in order, a reference-bound parameter
contributes an entry under the referenced name, a literal-bound parameter is
dropped, anything else passes through. -/
def newInputTypes (pz : List (String × ParametrizedDependency))
    (inputs : List (String × Ty)) : List (String × Ty) :=
  inputs.foldl (fun acc pt =>
    match getA pt.1 (upsOf pz) with
    | some src => dinsert src pt.2 acc
    | none =>
      if (keysA (litsOf pz)).contains pt.1 then acc
      else dinsert pt.1 pt.2 acc) []

/-- Effectful map used to sequence per-output node construction (docstring
formatting can raise). -/
def emapM {α β : Type} (f : α → Except Err β) : List α → Except Err (List β)
  | [] => .ok []
  | a :: t =>
    match f a with
    | .error e => .error e
    | .ok b =>
      match emapM f t with
      | .error e => .error e
      | .ok bs => .ok (b :: bs)

/-- One iteration of the loop in `parameterize.expand_node`: builds the node
for one declared output.  The produced callable is
`functools.partial(replacement_function, **literal_values)` — calling it
with kwargs `kw` runs `replacement_function` on the literal bindings updated
with `kw`. -/
def expandOne (p : Parameterize) (node_ : Node) (fnDoc : Option String)
    (opz : String × List (String × ParametrizedDependency)) : Except Err Node :=
  match formatDocString p fnDoc opz.1 with
  | .error e => .error e
  | .ok docstring =>
    .ok { name := opz.1
          type := node_.type
          doc_string := docstring
          callabl := fun kw =>
            replacementFunction node_.callabl (upsOf opz.2) (litsOf opz.2)
              (updateA (litsOf opz.2) kw)
          input_types := newInputTypes opz.2 node_.input_types
          tags := node_.tags }

/-- `parameterize.expand_node`: one produced node per declared output, in
declaration order.  `fnDoc` is `fn.__doc__` of the function argument. -/
def parameterizeExpand (p : Parameterize) (node_ : Node) (fnDoc : Option String) :
    Except Err (List Node) :=
  emapM (expandOne p node_ fnDoc) p.parametrization

/-! ### Constructors and validation -/

/-- A value handed to the `parameterize` constructor in a parameter mapping:
either an actual dependency object, or any other Python object (which the
constructor must reject). -/
inductive RawDep where
  | dep (d : ParametrizedDependency)
  | notADep (v : Val)

/-- One keyword argument of the `parameterize` constructor: either just a
parameter mapping, or a (mapping, docstring) tuple. -/
inductive RawParamSpec where
  | plain (mapping : List (String × RawDep))
  | withDoc (mapping : List (String × RawDep)) (doc : String)

/-- The parameter mapping of a constructor argument (the tuple-stripping
`value[0] if isinstance(value, tuple) else value` of `__init__`). -/
def RawParamSpec.mapping : RawParamSpec → List (String × RawDep)
  | .plain m => m
  | .withDoc m _ => m

/-- Python repr of a value, used in the bad-values error message. -/
def Val.pyRepr : Val → String
  | .vint n => toString n
  | .vstr s => String.singleton (Char.ofNat 39) ++ s ++ String.singleton (Char.ofNat 39)
  | .vnone => "None"
  | .vseries _ => "<series>"
  | .vdf _ => "<dataframe>"
  | .vdict _ => "<dict>"

/-- Python repr of a list of values. -/
def pyReprList (vs : List Val) : String :=
  "[" ++ String.intercalate ", " (vs.map Val.pyRepr) ++ "]"

/-- The values collected by the bad-values scan of `parameterize.__init__`:
every mapping value that is not a ParametrizedDependency, in iteration
order. -/
def badValues (raw : List (String × RawParamSpec)) : List Val :=
  (raw.map (fun x =>
    x.2.mapping.filterMap (fun q =>
      match q.2 with
      | .notADep v => some v
      | .dep _ => none))).flatten

/-- `parameterize.__init__`: strips tuple docstrings, rejects any
non-dependency value with an InvalidDecoratorException, and records the
specified docstrings.  It takes no function argument: construction happens
before any function is inspected. -/
def parameterizeInit (raw : List (String × RawParamSpec)) : Except Err Parameterize :=
  if !(badValues raw).isEmpty then
    .error (.invalidDecorator
      ("@parameterize must specify a dependency type -- either source() or value()."
        ++ "The following are not allowed: " ++ pyReprList (badValues raw) ++ "."))
  else
    .ok
      { parametrization := raw.map (fun x =>
          (x.1, x.2.mapping.filterMap (fun q =>
            match q.2 with
            | .dep d => some (q.1, d)
            | .notADep _ => none)))
        specified_docstrings := raw.filterMap (fun x =>
          match x.2 with
          | .withDoc _ d => some (x.1, d)
          | .plain _ => none) }

/-- `parameterize.validate`: re-formats every output's docstring (a KeyError
becomes an InvalidDecoratorException; other formatting errors propagate),
rejects functions with the reserved `output_name` parameter, and rejects
target parameters missing from the function signature.  `fnParams` are the
signature's parameter names, `fnQualName` is module.name for messages.
Two message-level deviations from the source: the missing parameters are a
Python set whose iteration order is unspecified, modelled here in
first-occurrence order, and the contraction in that message is written out.
No claim depends on the text of validation messages, only on the exception
class. -/
def parameterizeValidate (p : Parameterize) (fnDoc : Option String) (fnQualName : String)
    (fnParams : List String) : Except Err Unit :=
  match emapM (fun opz => formatDocString p fnDoc opz.1) p.parametrization with
  | .error (.keyError _) =>
    .error (.invalidDecorator
      ("Function docstring templating is incorrect. Please fix up the docstring "
        ++ fnQualName ++ "."))
  | .error e => .error e
  | .ok _ =>
    if fnParams.contains "output_name" then
      .error (.invalidDecorator
        ("Error function " ++ fnQualName ++ " cannot have `output_name` "
          ++ "as a parameter it is reserved."))
    else
      match (p.parametrization.map (fun opz => keysA opz.2)).flatten.filter
          (fun q => !(fnParams.contains q)) with
      | [] => .ok ()
      | missing =>
        .error (.invalidDecorator
          ("Parametrization is invalid: the following parameters do not appear in the function itself: "
            ++ String.intercalate ", " missing.dedup))

/-- A key of the `assigned_output` dict handed to `parameterize_values`:
supposed to be an (output name, documentation) tuple, but any other object
can be passed. -/
inductive AssignedKey where
  | pair (output doc : String)
  | bare (k : String)

/-- Whether an `assigned_output` key fails the isinstance tuple check of
`parameterize_values.__init__`. -/
def isBareKey (x : AssignedKey × Val) : Bool :=
  match x.1 with
  | .bare _ => true
  | .pair _ _ => false

/-- `parameterize_values.__init__`: raises InvalidDecoratorException on the
first key that is not a tuple, then delegates to `parameterize.__init__`
with one single-parameter literal mapping per declared output. -/
def parameterizeValuesInit (parameter : String) (assigned : List (AssignedKey × Val)) :
    Except Err Parameterize :=
  match assigned.find? isBareKey with
  | some _ =>
    .error (.invalidDecorator
      ("assigned_output key is incorrect. The parameterized decorator needs a dict of "
        ++ "[name, doc string] -> value to function."))
  | none =>
    parameterizeInit (assigned.filterMap (fun x =>
      match x.1 with
      | .pair out doc =>
        some (out, RawParamSpec.withDoc [(parameter, RawDep.dep (.literal x.2))] doc)
      | .bare _ => none))

/-- `parameterize_sources.__init__`: raises ValueError on an empty
parameterization or on any empty per-output mapping, then delegates to
`parameterize.__init__` with reference dependencies built by `source`. -/
def parameterizeSourcesInit (parameterization : List (String × List (String × String))) :
    Except Err Parameterize :=
  if parameterization.isEmpty then
    .error (.valueError "Cannot pass empty/None dictionary to parameterize_sources")
  else
    match parameterization.find? (fun x => x.2.isEmpty) with
    | some bad =>
      .error (.valueError
        ("Error, " ++ bad.1 ++ " has a none/empty dictionary mapping. Please fill it."))
    | none =>
      parameterizeInit (parameterization.map (fun x =>
        (x.1, RawParamSpec.plain (x.2.map (fun q => (q.1, RawDep.dep (.upstream q.2)))))))

/-! ### Column extraction (`extract_columns`) -/

/-- One column declaration of `extract_columns`: a bare name or a
(name, documentation) tuple. -/
inductive ColumnDecl where
  | bare (name : String)
  | pair (name doc : String)
deriving DecidableEq, Repr

/-- The dataframe label a declaration compares and fills under.  The source
performs `col in df_generated` and `fill_with_scalar(df_generated, col, _)`
with the raw declaration, so a tuple declaration acts as a tuple label. -/
def ColumnDecl.label : ColumnDecl → Label
  | .bare n => .str n
  | .pair n d => .pair n d

/-- The column name the per-column extractor uses: the tuple, unlike in the
fill loop, is unpacked first. -/
def ColumnDecl.colName : ColumnDecl → String
  | .bare n => n
  | .pair n _ => n

/-- The documentation of the produced per-column node: the tuple form
overrides the base documentation. -/
def ColumnDecl.docOr (c : ColumnDecl) (base : Option String) : Option String :=
  match c with
  | .bare _ => base
  | .pair _ d => some d

/-- The state of a constructed `extract_columns` decorator. -/
structure ExtractColumns where
  columns : List ColumnDecl
  fill_with : Option Val

/-- `extract_columns.__init__`: empty declarations are rejected with an
InvalidDecoratorException.  (The bare-list check of the source guards a
Python varargs misuse that the typed embedding cannot express.) -/
def extractColumnsInit (columns : List ColumnDecl) (fill : Option Val) :
    Except Err ExtractColumns :=
  if columns.isEmpty then
    .error (.invalidDecorator "Error empty arguments passed to extract_columns decorator.")
  else .ok { columns := columns, fill_with := fill }

/-- The labels of a dataframe, in column order. -/
def dfLabels (cols : List (Label × Val)) : List Label := cols.map Prod.fst

/-- The row count pandas broadcasts a scalar fill over: the length of the
index, read off the first column. -/
def dfNRows (cols : List (Label × Val)) : Nat :=
  match cols.head? with
  | some (_, .vseries xs) => xs.length
  | _ => 0

/-- Modelled from the spec: `registry.fill_with_scalar(df, label, value)`
(the external dataframe capability provider) materializes a new column under
`label` holding the fill value in every row. -/
def fillWithScalar (cols : List (Label × Val)) (lbl : Label) (v : Val) :
    List (Label × Val) :=
  cols ++ [(lbl, .vseries (List.replicate (dfNRows cols) v))]

/-- Modelled from the spec: `registry.get_column(df, name)` returns the
column stored under the string label `name`. -/
def getColumn (cols : List (Label × Val)) (name : String) : Val :=
  match cols.find? (fun c => c.1 = Label.str name) with
  | some c => c.2
  | none => .vnone

/-- Rendering of the present labels in the no-such-column message
(`str(df.columns)` of the source; modelled from the spec, which requires
the message to list the columns actually present). -/
def renderLabel : Label → String
  | .str s => String.singleton (Char.ofNat 39) ++ s ++ String.singleton (Char.ofNat 39)
  | .pair s d =>
    "(" ++ String.singleton (Char.ofNat 39) ++ s ++ String.singleton (Char.ofNat 39)
      ++ ", " ++ String.singleton (Char.ofNat 39) ++ d ++ String.singleton (Char.ofNat 39) ++ ")"

/-- Rendering of a label list in the no-such-column message. -/
def renderLabels (ls : List Label) : String :=
  "[" ++ String.intercalate ", " (ls.map renderLabel) ++ "]"

/-- The message of the extraction error raised by
`extract_columns.expand_node.extractor_fn`. -/
def noSuchColumnMsg (column producer : String) (present : List Label) : String :=
  "No such column: " ++ column ++ " produced by " ++ producer ++ ". "
    ++ "It only produced " ++ renderLabels present

/-- `extract_columns.expand_node.df_generator`: calls the wrapped callable
and, when a fill value is configured, fills every declared column whose
(raw, un-unpacked) declaration is absent from the produced table. -/
def dfGenerator (ec : ExtractColumns) (f : Kwargs → Except Err Val) (kw : Kwargs) :
    Except Err Val :=
  match f kw with
  | .error e => .error e
  | .ok v =>
    match ec.fill_with with
    | none => .ok v
    | some fv =>
      match v with
      | .vdf cols =>
        .ok (.vdf (ec.columns.foldl (fun acc c =>
          if (dfLabels acc).contains c.label then acc
          else fillWithScalar acc c.label fv) cols))
      | _ => .error (.typeError "argument is not a dataframe")

/-- `extract_columns.expand_node.extractor_fn` for one column: reads the
base node's output from kwargs, raises the extraction error when the column
is absent, otherwise returns the column. -/
def columnExtractor (producer column : String) (kw : Kwargs) : Except Err Val :=
  match getA producer kw with
  | none => .error (.keyError producer)
  | some v =>
    match v with
    | .vdf cols =>
      if (dfLabels cols).contains (Label.str column) then .ok (getColumn cols column)
      else .error (.invalidDecorator (noSuchColumnMsg column producer (dfLabels cols)))
    | _ => .error (.typeError "argument is not a dataframe")

/-- Modelled from the spec: `registry.get_column_type_from_df_type` of the
external capability provider, for the dataframe case the source supports. -/
def columnTypeOfDfType (t : Ty) : Ty :=
  match t with
  | .dataframe => .series
  | _ => .series

/-- `extract_columns.expand_node`: the base node with its callable replaced
by `df_generator`, then one per-column node per declaration, whose sole
input is the base node's output under the base node's name and type. -/
def extractColumnsExpand (ec : ExtractColumns) (node_ : Node) : List Node :=
  node_.copyWith (dfGenerator ec node_.callabl) ::
    ec.columns.map (fun c =>
      { name := c.colName
        type := columnTypeOfDfType node_.type
        doc_string := c.docOr node_.doc_string
        callabl := columnExtractor node_.name c.colName
        input_types := [(node_.name, node_.type)]
        tags := node_.tags })

/-! ### Field extraction (`extract_fields`) -/

/-- The state of a constructed `extract_fields` decorator. -/
structure ExtractFields where
  fields : List (String × Ty)
  fill_with : Option Val

/-- Python repr of a list of string keys, `list(dt.keys())` in the
no-such-field message. -/
def pyReprKeys (ks : List String) : String :=
  "[" ++ String.intercalate ", "
    (ks.map (fun k =>
      String.singleton (Char.ofNat 39) ++ k ++ String.singleton (Char.ofNat 39))) ++ "]"

/-- The message of the extraction error raised by
`extract_fields.expand_node.extractor_fn`. -/
def noSuchFieldMsg (field producer : String) (present : List String) : String :=
  "No such field: " ++ field ++ " produced by " ++ producer ++ ". "
    ++ "It only produced " ++ pyReprKeys present

/-- `extract_fields.expand_node.dict_generator`: calls the wrapped callable
and, when a fill value is configured, assigns the fill value under every
declared field absent from the produced dict. -/
def dictGenerator (ef : ExtractFields) (f : Kwargs → Except Err Val) (kw : Kwargs) :
    Except Err Val :=
  match f kw with
  | .error e => .error e
  | .ok v =>
    match ef.fill_with with
    | none => .ok v
    | some fv =>
      match v with
      | .vdict fs =>
        .ok (.vdict (ef.fields.foldl (fun acc fld =>
          if (keysA acc).contains fld.1 then acc else dinsert fld.1 fv acc) fs))
      | _ => .error (.typeError "argument is not a dict")

/-- `extract_fields.expand_node.extractor_fn` for one field: reads the base
node's output from kwargs, raises the extraction error when the field is
absent, otherwise indexes the dict. -/
def fieldExtractor (producer field : String) (kw : Kwargs) : Except Err Val :=
  match getA producer kw with
  | none => .error (.keyError producer)
  | some v =>
    match v with
    | .vdict fs =>
      match getA field fs with
      | some fv => .ok fv
      | none => .error (.invalidDecorator (noSuchFieldMsg field producer (keysA fs)))
    | _ => .error (.typeError "argument is not a dict")

/-- `extract_fields.expand_node`: the base node with its callable replaced
by `dict_generator`, then one per-field node per declaration.  Each
per-field node's sole input is declared with the bare `dict` type. -/
def extractFieldsExpand (ef : ExtractFields) (node_ : Node) : List Node :=
  node_.copyWith (dictGenerator ef node_.callabl) ::
    ef.fields.map (fun fld =>
      { name := fld.1
        type := fld.2
        doc_string := node_.doc_string
        callabl := fieldExtractor node_.name fld.1
        input_types := [(node_.name, Ty.dict)]
        tags := node_.tags })

/-! ### Combined extract + parameterize (`parameterize_extract_columns`) -/

/-- `ParameterizedExtract`: an output-name tuple paired with a full
parameterization. -/
structure ParameterizedExtract where
  outputs : List String
  input_mapping : List (String × ParametrizedDependency)

/-- The state of a constructed `parameterize_extract_columns` decorator. -/
structure ParameterizeExtractColumns where
  extract_config : List ParameterizedExtract
  reassign_columns : Bool

/-- `df_out.columns = _output_columns` of `wrapper_fn`: pandas reassigns the
labels positionally and raises ValueError on a length mismatch. -/
def reassignLabels (outputs : List String) (cols : List (Label × Val)) :
    Except Err (List (Label × Val)) :=
  if outputs.length = cols.length then
    .ok ((outputs.map Label.str).zip (cols.map Prod.snd))
  else .error (.valueError "Length mismatch between new column names and columns")

/-- One iteration of `parameterize_extract_columns.expand_node` for record
index `i`.  Note that `new_node` always wraps `wrapper_fn` (which reassigns
the column labels); the `fn_to_call` selected by `reassign_columns` is
passed to `parameterize.expand_node` only as the `fn` argument, which that
method uses purely for `fn.__doc__` — and `functools.wraps` makes the
wrapper's docstring equal the original's. -/
def pecPerRecord (pec : ParameterizeExtractColumns) (node_ : Node)
    (fnCall : Kwargs → Except Err Val) (fnDoc : Option String) (i : Nat)
    (pz : ParameterizedExtract) : Except Err (List Node) :=
  let wrapperFn : Kwargs → Except Err Val := fun kw =>
    match fnCall kw with
    | .error e => .error e
    | .ok (.vdf cols) =>
      match reassignLabels pz.outputs cols with
      | .error e => .error e
      | .ok cols2 => .ok (.vdf cols2)
    | .ok _ => .error (.typeError "object has no columns attribute")
  let newNode := node_.copyWith wrapperFn
  let wrapperDoc := fnDoc
  let fnToCallDoc := if pec.reassign_columns then wrapperDoc else fnDoc
  let pdec : Parameterize :=
    { parametrization := [(node_.name ++ "__" ++ toString i, pz.input_mapping)]
      specified_docstrings := [] }
  match parameterizeExpand pdec newNode fnToCallDoc with
  | .error e => .error e
  | .ok [pn] =>
    match extractColumnsInit (pz.outputs.map ColumnDecl.bare) none with
    | .error e => .error e
    | .ok ec => .ok (extractColumnsExpand ec pn)
  | .ok _ => .error (.valueError "unexpected number of parameterized nodes")

/-- `parameterize_extract_columns.expand_node`: concatenation of the nodes
produced for each configuration record, in order. -/
def pecExpand (pec : ParameterizeExtractColumns) (node_ : Node)
    (fnCall : Kwargs → Except Err Val) (fnDoc : Option String) :
    Except Err (List Node) :=
  match emapM (fun ipz => pecPerRecord pec node_ fnCall fnDoc ipz.1 ipz.2)
      pec.extract_config.enum with
  | .error e => .error e
  | .ok nss => .ok nss.flatten

/-! ### Formatter lemmas -/

/-- No curly brace occurs among these characters. -/
def braceFreeL : List Char → Bool
  | [] => true
  | c :: t => if c = lbraceC then false else if c = rbraceC then false else braceFreeL t

/-- No curly brace occurs in this string. -/
def braceFree (s : String) : Bool := braceFreeL s.data

/-- A replacement-field name consisting of ordinary named-field characters:
nonempty, brace-free, no attribute/index/conversion/format-spec syntax, and
not positional (not all digits). -/
def simpleName (s : String) : Bool :=
  if s.data.isEmpty then false
  else if braceFreeL s.data then
    if s.data.any isSpecialFieldChar then false
    else if s.data.all Char.isDigit then false
    else true
  else false

/-! ### Correctness of the kwargs rewrite -/

/-- What each name must resolve to after the upstream-renaming loop: a
renamed parameter resolves to what was supplied under its source name, a
consumed source name resolves to nothing, anything else is untouched. -/
def upsExpectedGet (ups : List (String × String)) (kw : Kwargs) (n : String) : Option Val :=
  match getA n ups with
  | some s => getA s kw
  | none => if (ups.map Prod.snd).contains n then none else getA n kw

/-- The value that, per the claim, must be supplied to the original function
under name `n` for the direct call: a reference-bound parameter gets the
value supplied under the referenced name, a literal-bound parameter gets its
literal, referenced names themselves are not function parameters, everything
else is passed through. -/
def claimDirectGet (pz : List (String × ParametrizedDependency)) (kw : Kwargs)
    (n : String) : Option Val :=
  match getA n pz with
  | some (.upstream s) => getA s kw
  | some (.literal v) => some v
  | none => if ((upsOf pz).map Prod.snd).contains n then none else getA n kw

/-- The example function of the claim: f(a, b) = a + b, reading its keyword
arguments. -/
def exampleAdd : Kwargs → Except Err Val := fun kw =>
  match getA "a" kw, getA "b" kw with
  | some (.vint x), some (.vint y) => .ok (.vint (x + y))
  | _, _ => .error (.typeError "missing a required argument")

/-- The parameterize decorator of the claim example:
out1 has a bound to value(1) and b bound to source(n2). -/
def exampleParameterize : Parameterize :=
  { parametrization := [("out1", [("a", .literal (.vint 1)), ("b", .upstream "n2")])]
    specified_docstrings := [] }

/-- The base node of the claim example. -/
def exampleNode : Node :=
  { name := "f"
    type := .tint
    doc_string := none
    callabl := exampleAdd
    input_types := [("a", .tint), ("b", .tint)]
    tags := [] }

/-- The function f(a, b) = a - b used by the C1 counterexample. -/
def cexSub : Kwargs → Except Err Val := fun kw =>
  match getA "a" kw, getA "b" kw with
  | some (.vint x), some (.vint y) => .ok (.vint (x - y))
  | _, _ => .error (.typeError "missing a required argument")

/-- The counterexample parameterization: out1 has b bound to source(n) and a
bound to source(b) — every target parameter is in the signature, so the
parameterization is valid, but the referenced name b collides with the
parameter b. -/
def cexParameterize : Parameterize :=
  { parametrization := [("out1", [("b", .upstream "n"), ("a", .upstream "b")])]
    specified_docstrings := [] }

/-- The base node of the C1 counterexample. -/
def cexNode : Node :=
  { name := "f"
    type := .tint
    doc_string := none
    callabl := cexSub
    input_types := [("a", .tint), ("b", .tint)]
    tags := [] }

/-! ### The derived input-type mapping (claim C2) -/

/-- The derived input-type mapping written as a filterMap over the base
node's input types, the form the fold of `parameterize.expand_node` takes
when the referenced names are fresh. -/
def expectedInputTypes (pz : List (String × ParametrizedDependency))
    (inputs : List (String × Ty)) : List (String × Ty) :=
  inputs.filterMap (fun pt =>
    match getA pt.1 (upsOf pz) with
    | some src => some (src, pt.2)
    | none =>
      if (keysA (litsOf pz)).contains pt.1 then none
      else some pt)

/-- The base node of the C2 counterexample: f(a : int, b : str). -/
def cex2Node : Node :=
  { name := "f2"
    type := .tint
    doc_string := none
    callabl := exampleAdd
    input_types := [("a", .tint), ("b", .tstr)]
    tags := [] }

/-- The C2 counterexample parameterization: out1 has a bound to source(b)
and b bound to value(1) — a valid parameterization (both targets are in the
signature) whose referenced name b equals the literal-bound parameter b. -/
def cex2Parameterize : Parameterize :=
  { parametrization := [("out1", [("a", .upstream "b"), ("b", .literal (.vint 1))])]
    specified_docstrings := [] }

/-- The substitution the amended claim C3 specifies for one placeholder:
a literal-bound parameter becomes the str of its literal, a reference-bound
parameter becomes the referenced name, the reserved placeholder becomes the
output name, and any other name stays as the bare name, braces stripped. -/
def claimSubst (outputName : String) (pz : List (String × ParametrizedDependency))
    (u : String) : String :=
  match getA u pz with
  | some (.literal v) => v.pyStr
  | some (.upstream s) => s
  | none => if "output_name" = u then outputName else u

/-- One segment of a docstring template: a run of literal text, or one
braced replacement field holding the name `u`. -/
inductive TplSeg where
  | txt (s : String)
  | hole (u : String)

/-- Render a segment list back into the template string, each hole becoming
a braced replacement field.  Every template made of brace-free text and
simple named fields arises this way, with any number of fields. -/
def renderTpl : List TplSeg → String
  | [] => ""
  | .txt s :: t => s ++ renderTpl t
  | .hole u :: t =>
    String.singleton lbraceC ++ u ++ String.singleton rbraceC ++ renderTpl t

/-- The segment list lies in the fragment `format_map` substitutes field by
field: every text run is brace-free and every field name is a simple named
field. -/
def goodTpl : List TplSeg → Bool
  | [] => true
  | .txt s :: t => braceFree s && goodTpl t
  | .hole u :: t => simpleName u && goodTpl t

/-- Formatting a segment list under an IdentityDict mapping `m`: text is
kept, each field is replaced by its value in `m`, a missing field by its own
name. -/
def substTplM (m : List (String × String)) : List TplSeg → String
  | [] => ""
  | .txt s :: t => s ++ substTplM m t
  | .hole u :: t => (getA u m).getD u ++ substTplM m t

/-- The whole-template substitution the amended claim C3 specifies: text is
kept and every placeholder is replaced by `claimSubst` of its name. -/
def substTpl (outputName : String) (pz : List (String × ParametrizedDependency)) :
    List TplSeg → String
  | [] => ""
  | .txt s :: t => s ++ substTpl outputName pz t
  | .hole u :: t => claimSubst outputName pz u ++ substTpl outputName pz t

/-- The parameterize state used by the C3 counterexample: a single output
named out with an empty mapping. -/
def cex3Parameterize : Parameterize :=
  { parametrization := [("out", [])], specified_docstrings := [] }

/-- A base node returning a parameterized mapping type, for the C10
witness. -/
def exampleFieldsNode : Node :=
  { name := "d"
    type := .dictOf .tstr .tint
    doc_string := none
    callabl := fun _ => Except.ok (Val.vdict [("x", Val.vint 3)])
    input_types := []
    tags := [] }

/-- A base node returning a dataframe, for the extraction witnesses. -/
def exampleDfNode : Node :=
  { name := "t"
    type := .dataframe
    doc_string := none
    callabl := fun _ => Except.ok (Val.vdf [(Label.str "c1", Val.vseries [Val.vint 1, Val.vint 2])])
    input_types := []
    tags := [] }

/-- The field declaration used by the extraction witnesses. -/
def exampleExtractFields : ExtractFields :=
  { fields := [("x", .tint)], fill_with := none }

/-- The column declaration used by the extraction witnesses. -/
def exampleExtractColumns : ExtractColumns :=
  { columns := [.bare "c"], fill_with := none }

/-- The base function of the C6 failing input: produces a two-row dataframe
with the single column c1. -/
def cex6Node : Node :=
  { name := "out"
    type := .dataframe
    doc_string := none
    callabl := fun _ => Except.ok (Val.vdf [(Label.str "c1", Val.vseries [Val.vint 1, Val.vint 2])])
    input_types := []
    tags := [] }

/-- The C6 failing input: a (name, documentation) column declaration with a
fill value configured. -/
def cex6Extract : ExtractColumns :=
  { columns := [.pair "c2" "doc2"], fill_with := some (.vint 0) }

/-! ### Claim C4: combined extract + parameterize -/

/-- The original function of the C4 failing input: produces a one-row
dataframe with columns a and b. -/
def cex4Fn : Kwargs → Except Err Val := fun _ =>
  Except.ok (Val.vdf [(Label.str "a", Val.vseries [Val.vint 1]),
    (Label.str "b", Val.vseries [Val.vint 2])])

/-- The base node of the C4 failing input. -/
def cex4Node : Node :=
  { name := "orig"
    type := .dataframe
    doc_string := none
    callabl := cex4Fn
    input_types := []
    tags := [] }

/-- The C4 failing input: column reassignment explicitly disabled, one
record declaring the output names x and y with an empty parameterization. -/
def cex4Pec : ParameterizeExtractColumns :=
  { extract_config := [{ outputs := ["x", "y"], input_mapping := [] }]
    reassign_columns := false }

/-! ### Theorems -/

theorem getA_eq_none {α : Type} (k : String) (l : List (String × α)) :
    getA k l = none ↔ k ∉ keysA l := by
  induction l with
  | nil => simp [getA, keysA]
  | cons p t ih =>
    simp only [getA, keysA, List.map_cons, List.mem_cons]
    by_cases h : p.1 = k
    · simp [h]
    · simp [h, ih, keysA, Ne.symm h]

theorem getA_mem {α : Type} {k : String} {v : α} {l : List (String × α)}
    (h : getA k l = some v) : (k, v) ∈ l := by
  induction l with
  | nil => simp [getA] at h
  | cons p t ih =>
    simp only [getA] at h
    by_cases hp : p.1 = k
    · simp only [hp, if_pos rfl] at h
      cases h
      rw [← hp]
      exact List.mem_cons_self p t
    · simp only [if_neg hp] at h
      exact List.mem_cons_of_mem _ (ih h)

theorem getA_isSome {α : Type} (k : String) (l : List (String × α)) :
    (getA k l).isSome ↔ k ∈ keysA l := by
  rcases h : getA k l with _ | v
  · simp only [Option.isSome_none, Bool.false_eq_true, false_iff]
    rw [getA_eq_none] at h
    exact h
  · simp only [Option.isSome_some, true_iff]
    exact List.mem_map.mpr ⟨(k, v), getA_mem h, rfl⟩

theorem getA_append {α : Type} (k : String) (l1 l2 : List (String × α)) :
    getA k (l1 ++ l2) =
      match getA k l1 with
      | some v => some v
      | none => getA k l2 := by
  induction l1 with
  | nil => simp [getA]
  | cons p t ih =>
    by_cases h : p.1 = k
    · simp [getA, h]
    · simp [getA, h, ih]

theorem getA_dinsert_self {α : Type} (k : String) (v : α) (l : List (String × α)) :
    getA k (dinsert k v l) = some v := by
  induction l with
  | nil => simp [dinsert, getA]
  | cons p t ih =>
    by_cases h : p.1 = k
    · simp [dinsert, h, getA]
    · simp [dinsert, h, getA, ih]

theorem getA_dinsert_ne {α : Type} {k k2 : String} (v : α) (l : List (String × α))
    (h : k ≠ k2) : getA k2 (dinsert k v l) = getA k2 l := by
  induction l with
  | nil => simp [dinsert, getA, h]
  | cons p t ih =>
    by_cases hp : p.1 = k
    · simp only [dinsert, if_pos hp, getA, if_neg h]
      rw [if_neg (show ¬p.1 = k2 from fun hc => h (hp.symm.trans hc))]
    · simp only [dinsert, if_neg hp, getA]
      by_cases hp2 : p.1 = k2
      · simp [hp2]
      · simp [hp2, ih]

theorem mem_keysA_dinsert {α : Type} (a k : String) (v : α) (l : List (String × α)) :
    a ∈ keysA (dinsert k v l) ↔ a = k ∨ a ∈ keysA l := by
  induction l with
  | nil => simp [dinsert, keysA]
  | cons p t ih =>
    by_cases h : p.1 = k
    · simp only [dinsert, if_pos h, keysA, List.map_cons, List.mem_cons]
      rw [← h]
      tauto
    · simp only [dinsert, if_neg h, keysA, List.map_cons, List.mem_cons] at *
      tauto

theorem nodup_keysA_dinsert {α : Type} (k : String) (v : α) (l : List (String × α))
    (h : (keysA l).Nodup) : (keysA (dinsert k v l)).Nodup := by
  induction l with
  | nil => simp [dinsert, keysA]
  | cons p t ih =>
    by_cases hp : p.1 = k
    · simp only [keysA, List.map_cons, List.nodup_cons] at h
      simp only [dinsert, if_pos hp, keysA, List.map_cons, List.nodup_cons]
      exact ⟨hp ▸ h.1, h.2⟩
    · simp only [keysA, List.map_cons, List.nodup_cons] at h
      simp only [dinsert, if_neg hp, keysA, List.map_cons, List.nodup_cons]
      constructor
      · intro hc
        rw [show (List.map Prod.fst (dinsert k v t) : List String) = keysA (dinsert k v t) from rfl,
          mem_keysA_dinsert] at hc
        rcases hc with hc | hc
        · exact hp (hc ▸ rfl)
        · exact h.1 hc
      · exact ih h.2

theorem popA_some_of_getA {α : Type} {k : String} {v : α} {l : List (String × α)}
    (h : getA k l = some v) : ∃ t, popA k l = some (v, t) := by
  induction l with
  | nil => simp [getA] at h
  | cons p t ih =>
    by_cases hp : p.1 = k
    · simp only [getA, if_pos hp] at h
      cases h
      exact ⟨t, by simp [popA, hp]⟩
    · simp only [getA, if_neg hp] at h
      obtain ⟨t2, ht2⟩ := ih h
      exact ⟨p :: t2, by simp [popA, hp, ht2]⟩

theorem popA_getA {α : Type} {k : String} {v : α} {l t : List (String × α)}
    (h : popA k l = some (v, t)) : getA k l = some v := by
  induction l generalizing t with
  | nil => simp [popA] at h
  | cons p t0 ih =>
    by_cases hp : p.1 = k
    · simp only [popA, if_pos hp] at h
      simp only [getA, if_pos hp]
      cases h
      rfl
    · simp only [popA, if_neg hp] at h
      simp only [getA, if_neg hp]
      match hrec : popA k t0 with
      | none => rw [hrec] at h; cases h
      | some (v2, t2) =>
        rw [hrec] at h
        cases h
        exact ih hrec

theorem popA_getA_ne {α : Type} {k k2 : String} {v : α} {l t : List (String × α)}
    (h : popA k l = some (v, t)) (hne : k2 ≠ k) : getA k2 t = getA k2 l := by
  induction l generalizing t with
  | nil => simp [popA] at h
  | cons p t0 ih =>
    by_cases hp : p.1 = k
    · simp only [popA, if_pos hp] at h
      cases h
      conv => rhs; rw [getA]
      rw [if_neg (show ¬p.1 = k2 from fun hc => hne (hc.symm.trans hp))]
    · simp only [popA, if_neg hp] at h
      match hrec : popA k t0 with
      | none => rw [hrec] at h; cases h
      | some (v2, t2) =>
        rw [hrec] at h
        cases h
        simp only [getA]
        by_cases hp2 : p.1 = k2
        · simp [hp2]
        · simp [hp2, ih hrec]

theorem mem_keysA_popA {α : Type} {k a : String} {v : α} {l t : List (String × α)}
    (h : popA k l = some (v, t)) (ha : a ∈ keysA t) : a ∈ keysA l := by
  induction l generalizing t with
  | nil => simp [popA] at h
  | cons p t0 ih =>
    by_cases hp : p.1 = k
    · simp only [popA, if_pos hp] at h
      cases h
      simp [keysA, List.mem_cons] at ha ⊢
      tauto
    · simp only [popA, if_neg hp] at h
      match hrec : popA k t0 with
      | none => rw [hrec] at h; cases h
      | some (v2, t2) =>
        rw [hrec] at h
        cases h
        simp only [keysA, List.map_cons, List.mem_cons] at ha ⊢
        rcases ha with ha | ha
        · exact Or.inl ha
        · exact Or.inr (ih hrec ha)

theorem popA_nodup {α : Type} {k : String} {v : α} {l t : List (String × α)}
    (hn : (keysA l).Nodup) (h : popA k l = some (v, t)) : (keysA t).Nodup := by
  induction l generalizing t with
  | nil => simp [popA] at h
  | cons p t0 ih =>
    simp only [keysA, List.map_cons, List.nodup_cons] at hn
    by_cases hp : p.1 = k
    · simp only [popA, if_pos hp] at h
      cases h
      exact hn.2
    · simp only [popA, if_neg hp] at h
      match hrec : popA k t0 with
      | none => rw [hrec] at h; cases h
      | some (v2, t2) =>
        rw [hrec] at h
        cases h
        simp only [keysA, List.map_cons, List.nodup_cons]
        exact ⟨fun hc => hn.1 (mem_keysA_popA hrec hc), ih hn.2 hrec⟩

theorem popA_getA_self {α : Type} {k : String} {v : α} {l t : List (String × α)}
    (hn : (keysA l).Nodup) (h : popA k l = some (v, t)) : getA k t = none := by
  induction l generalizing t with
  | nil => simp [popA] at h
  | cons p t0 ih =>
    simp only [keysA, List.map_cons, List.nodup_cons] at hn
    by_cases hp : p.1 = k
    · simp only [popA, if_pos hp] at h
      cases h
      rw [getA_eq_none]
      exact fun hc => hn.1 (hp ▸ hc)
    · simp only [popA, if_neg hp] at h
      match hrec : popA k t0 with
      | none => rw [hrec] at h; cases h
      | some (v2, t2) =>
        rw [hrec] at h
        cases h
        simp only [getA, if_neg hp]
        exact ih hn.2 hrec

theorem getA_updateA {α : Type} (k : String) (base upd : List (String × α))
    (hn : (keysA upd).Nodup) :
    getA k (updateA base upd) =
      match getA k upd with
      | some v => some v
      | none => getA k base := by
  induction upd generalizing base with
  | nil => simp [updateA, getA]
  | cons q t ih =>
    simp only [keysA, List.map_cons, List.nodup_cons] at hn
    have step : updateA base (q :: t) = updateA (dinsert q.1 q.2 base) t := rfl
    rw [step, ih _ hn.2]
    by_cases hq : q.1 = k
    · have ht : getA k t = none := by
        rw [getA_eq_none]
        exact fun hc => hn.1 (hq ▸ hc)
      simp [getA, hq, ht, hq ▸ getA_dinsert_self q.1 q.2 base]
    · simp only [getA, if_neg hq]
      match getA k t with
      | some v => rfl
      | none => simp [getA_dinsert_ne _ _ hq]

theorem mem_keysA_updateA {α : Type} (a : String) (base upd : List (String × α)) :
    a ∈ keysA (updateA base upd) ↔ a ∈ keysA base ∨ a ∈ keysA upd := by
  induction upd generalizing base with
  | nil => simp [updateA, keysA]
  | cons q t ih =>
    have step : updateA base (q :: t) = updateA (dinsert q.1 q.2 base) t := rfl
    rw [step, ih]
    rw [mem_keysA_dinsert]
    simp only [keysA, List.map_cons, List.mem_cons]
    tauto

theorem nodup_keysA_updateA {α : Type} (base upd : List (String × α))
    (hb : (keysA base).Nodup) : (keysA (updateA base upd)).Nodup := by
  induction upd generalizing base with
  | nil => exact hb
  | cons q t ih =>
    have step : updateA base (q :: t) = updateA (dinsert q.1 q.2 base) t := rfl
    rw [step]
    exact ih _ (nodup_keysA_dinsert _ _ _ hb)

theorem keysA_append {α : Type} (l1 l2 : List (String × α)) :
    keysA (l1 ++ l2) = keysA l1 ++ keysA l2 :=
  List.map_append _ _ _

theorem dinsert_of_not_mem {α : Type} {k : String} (v : α) {l : List (String × α)}
    (h : k ∉ keysA l) : dinsert k v l = l ++ [(k, v)] := by
  induction l with
  | nil => simp [dinsert]
  | cons p t ih =>
    simp only [keysA, List.map_cons, List.mem_cons] at h
    push_neg at h
    simp only [dinsert, if_neg (fun hc : p.1 = k => h.1 hc.symm), List.cons_append]
    rw [ih h.2]

/-! ### Helper lemmas -/

theorem emapM_ok_length {α β : Type} {f : α → Except Err β} {l : List α} {ys : List β}
    (h : emapM f l = .ok ys) : ys.length = l.length := by
  induction l generalizing ys with
  | nil => simp only [emapM] at h; cases h; rfl
  | cons a t ih =>
    simp only [emapM] at h
    match hf : f a with
    | .error e => rw [hf] at h; cases h
    | .ok b =>
      rw [hf] at h
      match hr : emapM f t with
      | .error e => rw [hr] at h; cases h
      | .ok bs =>
        rw [hr] at h
        cases h
        simp [ih hr]

theorem emapM_ok_get {α β : Type} {f : α → Except Err β} {l : List α} {ys : List β}
    (h : emapM f l = .ok ys) (i : Nat) (hi : i < l.length) (hi2 : i < ys.length) :
    f (l.get ⟨i, hi⟩) = .ok (ys.get ⟨i, hi2⟩) := by
  induction l generalizing ys i with
  | nil => cases hi
  | cons a t ih =>
    simp only [emapM] at h
    match hf : f a with
    | .error e => rw [hf] at h; cases h
    | .ok b =>
      rw [hf] at h
      match hr : emapM f t with
      | .error e => rw [hr] at h; cases h
      | .ok bs =>
        rw [hr] at h
        cases h
        match i with
        | 0 => exact hf
        | i + 1 =>
          exact ih hr i (Nat.lt_of_succ_lt_succ hi) (Nat.lt_of_succ_lt_succ hi2)

theorem emapM_all_ok {α β : Type} {f : α → Except Err β} {l : List α}
    (h : ∀ a ∈ l, ∃ b, f a = .ok b) : ∃ bs, emapM f l = .ok bs := by
  induction l with
  | nil => exact ⟨[], rfl⟩
  | cons a t ih =>
    obtain ⟨b, hb⟩ := h a (List.mem_cons_self a t)
    obtain ⟨bs, hbs⟩ := ih (fun x hx => h x (List.mem_cons_of_mem a hx))
    exact ⟨b :: bs, by simp [emapM, hb, hbs]⟩

theorem upsOf_cons_up (prm s : String) (t : List (String × ParametrizedDependency)) :
    upsOf ((prm, .upstream s) :: t) = (prm, s) :: upsOf t := rfl

theorem upsOf_cons_lit (prm : String) (v : Val) (t : List (String × ParametrizedDependency)) :
    upsOf ((prm, .literal v) :: t) = upsOf t := rfl

theorem litsOf_cons_lit (prm : String) (v : Val) (t : List (String × ParametrizedDependency)) :
    litsOf ((prm, .literal v) :: t) = (prm, v) :: litsOf t := rfl

theorem litsOf_cons_up (prm s : String) (t : List (String × ParametrizedDependency)) :
    litsOf ((prm, .upstream s) :: t) = litsOf t := rfl

theorem keysA_upsOf_sublist (pz : List (String × ParametrizedDependency)) :
    List.Sublist (keysA (upsOf pz)) (keysA pz) := by
  induction pz with
  | nil => simp [upsOf, keysA]
  | cons q t ih =>
    match q with
    | (prm, .upstream s) =>
      rw [upsOf_cons_up]
      exact List.Sublist.cons₂ prm ih
    | (prm, .literal v) =>
      rw [upsOf_cons_lit]
      exact List.Sublist.cons prm ih

theorem keysA_litsOf_sublist (pz : List (String × ParametrizedDependency)) :
    List.Sublist (keysA (litsOf pz)) (keysA pz) := by
  induction pz with
  | nil => simp [litsOf, keysA]
  | cons q t ih =>
    match q with
    | (prm, .literal v) =>
      rw [litsOf_cons_lit]
      exact List.Sublist.cons₂ prm ih
    | (prm, .upstream s) =>
      rw [litsOf_cons_up]
      exact List.Sublist.cons prm ih

theorem getA_upsOf (k : String) (pz : List (String × ParametrizedDependency))
    (hn : (keysA pz).Nodup) :
    getA k (upsOf pz) =
      match getA k pz with
      | some (.upstream s) => some s
      | _ => none := by
  induction pz with
  | nil => simp [upsOf, getA]
  | cons q t ih =>
    simp only [keysA, List.map_cons, List.nodup_cons] at hn
    match q with
    | (prm, .upstream s) =>
      rw [upsOf_cons_up]
      by_cases hp : prm = k
      · simp [getA, hp]
      · simp only [getA, if_neg hp]
        exact ih hn.2
    | (prm, .literal v) =>
      rw [upsOf_cons_lit]
      by_cases hp : prm = k
      · subst hp
        have ht2 : getA prm (upsOf t) = none := by
          rw [getA_eq_none]
          intro hc
          exact hn.1 ((keysA_upsOf_sublist t).subset hc)
        simp [getA, ht2]
      · simp only [getA, if_neg hp]
        exact ih hn.2

theorem getA_litsOf (k : String) (pz : List (String × ParametrizedDependency))
    (hn : (keysA pz).Nodup) :
    getA k (litsOf pz) =
      match getA k pz with
      | some (.literal v) => some v
      | _ => none := by
  induction pz with
  | nil => simp [litsOf, getA]
  | cons q t ih =>
    simp only [keysA, List.map_cons, List.nodup_cons] at hn
    match q with
    | (prm, .literal v) =>
      rw [litsOf_cons_lit]
      by_cases hp : prm = k
      · simp [getA, hp]
      · simp only [getA, if_neg hp]
        exact ih hn.2
    | (prm, .upstream s) =>
      rw [litsOf_cons_up]
      by_cases hp : prm = k
      · subst hp
        have ht2 : getA prm (litsOf t) = none := by
          rw [getA_eq_none]
          intro hc
          exact hn.1 ((keysA_litsOf_sublist t).subset hc)
        simp [getA, ht2]
      · simp only [getA, if_neg hp]
        exact ih hn.2

theorem braceFreeL_cons {c : Char} {t : List Char} (h : braceFreeL (c :: t) = true) :
    ¬c = lbraceC ∧ ¬c = rbraceC ∧ braceFreeL t = true := by
  by_cases h1 : c = lbraceC
  · simp [braceFreeL, h1] at h
  · by_cases h2 : c = rbraceC
    · simp [braceFreeL, h1, h2] at h
    · simp only [braceFreeL, if_neg h1, if_neg h2] at h
      exact ⟨h1, h2, h⟩

theorem simpleName_spec {u : String} (h : simpleName u = true) :
    u.data.isEmpty = false ∧ braceFreeL u.data = true
      ∧ u.data.any isSpecialFieldChar = false ∧ u.data.all Char.isDigit = false := by
  unfold simpleName at h
  by_cases h1 : u.data.isEmpty = true
  · simp [h1] at h
  · rw [if_neg h1] at h
    by_cases h2 : braceFreeL u.data = true
    · rw [if_pos h2] at h
      by_cases h3 : u.data.any isSpecialFieldChar = true
      · simp [h3] at h
      · rw [if_neg h3] at h
        by_cases h4 : u.data.all Char.isDigit = true
        · simp [h4] at h
        · exact ⟨Bool.eq_false_iff.mpr h1, h2,
            Bool.eq_false_iff.mpr h3, Bool.eq_false_iff.mpr h4⟩
    · simp [if_neg h2] at h

theorem emapCons_emapApp (c : Char) (s : List Char) (x : Except Err (List Char)) :
    emapCons c (emapApp s x) = emapApp (c :: s) x := by
  cases x <;> rfl

theorem emapApp_nil (x : Except Err (List Char)) : emapApp [] x = x := by
  cases x <;> rfl

theorem emapApp_emapApp (s t : List Char) (x : Except Err (List Char)) :
    emapApp s (emapApp t x) = emapApp (s ++ t) x := by
  cases x <;> simp [emapApp]

theorem pyFmtM_text_append (m : List (String × String)) (l1 l2 : List Char)
    (h : braceFreeL l1 = true) :
    pyFmtM m .text (l1 ++ l2) = emapApp l1 (pyFmtM m .text l2) := by
  induction l1 with
  | nil => simp [emapApp_nil]
  | cons c t ih =>
    obtain ⟨h1, h2, h3⟩ := braceFreeL_cons h
    simp only [List.cons_append, List.append_eq, pyFmtM, if_neg h1, if_neg h2]
    rw [ih h3, emapCons_emapApp]

theorem pyFmtM_text_braceFree (m : List (String × String)) (l : List Char)
    (h : braceFreeL l = true) : pyFmtM m .text l = .ok l := by
  have := pyFmtM_text_append m l [] h
  simpa [pyFmtM, emapApp] using this

theorem pyFmtM_inField (m : List (String × String)) (acc nameRest suf : List Char)
    (h : braceFreeL nameRest = true) :
    pyFmtM m (.inField acc) (nameRest ++ rbraceC :: suf) =
      match fieldValue m (acc.reverse ++ nameRest) with
      | .error e => .error e
      | .ok v => emapApp v (pyFmtM m .text suf) := by
  induction nameRest generalizing acc with
  | nil => simp [pyFmtM]
  | cons c t ih =>
    obtain ⟨h1, h2, h3⟩ := braceFreeL_cons h
    simp only [List.cons_append, List.append_eq, pyFmtM, if_neg h1, if_neg h2]
    rw [ih (c :: acc) h3]
    simp [List.reverse_cons, List.append_assoc]

theorem fieldValue_simple (m : List (String × String)) (u : String)
    (hu : simpleName u = true) :
    fieldValue m u.data =
      match getA u m with
      | some v => .ok v.data
      | none => .ok u.data := by
  obtain ⟨h1, _, h3, h4⟩ := simpleName_spec hu
  simp only [fieldValue, h1, h3, h4, Bool.false_eq_true, if_false]

theorem pyFmtM_template (m : List (String × String)) (pre u suf : List Char)
    (hpre : braceFreeL pre = true) (hu : braceFreeL u = true) (hu0 : u ≠ [])
    (hval : ∃ r, fieldValue m u = .ok r) :
    pyFmtM m .text (pre ++ lbraceC :: (u ++ rbraceC :: suf)) =
      match fieldValue m u with
      | .error e => .error e
      | .ok v => emapApp pre (emapApp v (pyFmtM m .text suf)) := by
  rw [pyFmtM_text_append m pre _ hpre]
  match u with
  | [] => exact absurd rfl hu0
  | u0 :: urest =>
    obtain ⟨hb1, hb2, hb3⟩ := braceFreeL_cons hu
    have h1 : pyFmtM m .text (lbraceC :: (u0 :: urest ++ rbraceC :: suf)) =
        pyFmtM m .sawL (u0 :: urest ++ rbraceC :: suf) := by
      simp [pyFmtM]
    rw [h1]
    have h2 : pyFmtM m .sawL (u0 :: (urest ++ rbraceC :: suf)) =
        pyFmtM m (.inField [u0]) (urest ++ rbraceC :: suf) := by
      simp [pyFmtM, if_neg hb1, if_neg hb2]
    simp only [List.cons_append] at h2 ⊢
    rw [h2, pyFmtM_inField m [u0] urest suf hb3]
    obtain ⟨r, hr⟩ := hval
    simp only [List.reverse_cons, List.reverse_nil, List.nil_append, List.singleton_append]
    rw [hr]

theorem applyUps_ok (ups : List (String × String)) (kw : Kwargs)
    (hkw : (keysA kw).Nodup)
    (hsub : ∀ q ∈ ups, q.2 ∈ keysA kw)
    (hsnodup : (ups.map Prod.snd).Nodup)
    (hpnodup : (ups.map Prod.fst).Nodup)
    (hdisj : ∀ q ∈ ups, ∀ r ∈ ups, q.2 ≠ r.1) :
    ∃ kw2, applyUps ups kw = .ok kw2 ∧ (keysA kw2).Nodup ∧
      ∀ n, getA n kw2 = upsExpectedGet ups kw n := by
  induction ups generalizing kw with
  | nil =>
    refine ⟨kw, rfl, hkw, fun n => ?_⟩
    simp [upsExpectedGet, getA]
  | cons q rest ih =>
    have hs_mem : q.2 ∈ keysA kw := hsub q (List.mem_cons_self q rest)
    have hsome : ∃ v, getA q.2 kw = some v := by
      rcases hv : getA q.2 kw with _ | v
      · rw [getA_eq_none] at hv
        exact absurd hs_mem hv
      · exact ⟨v, rfl⟩
    obtain ⟨v, hv⟩ := hsome
    obtain ⟨kw1, hpop⟩ := popA_some_of_getA hv
    have hsnodup2 : (q.2 :: rest.map Prod.snd).Nodup := by
      simpa [List.map_cons] using hsnodup
    have hpnodup2 : (q.1 :: rest.map Prod.fst).Nodup := by
      simpa [List.map_cons] using hpnodup
    have hn1 : (keysA (dinsert q.1 v kw1)).Nodup :=
      nodup_keysA_dinsert _ _ _ (popA_nodup hkw hpop)
    have hsub1 : ∀ r ∈ rest, r.2 ∈ keysA (dinsert q.1 v kw1) := by
      intro r hr
      have hrk : r.2 ∈ keysA kw := hsub r (List.mem_cons_of_mem q hr)
      have hrs : r.2 ≠ q.2 := by
        intro hc
        exact (List.nodup_cons.mp hsnodup2).1
          (hc ▸ List.mem_map.mpr ⟨r, hr, rfl⟩)
      have : getA r.2 kw1 = getA r.2 kw := popA_getA_ne hpop hrs
      rw [mem_keysA_dinsert]
      right
      rw [← getA_isSome, this, getA_isSome]
      exact hrk
    obtain ⟨kw2, happ, hkw2n, hchar⟩ := ih (dinsert q.1 v kw1) hn1 hsub1
      (List.nodup_cons.mp hsnodup2).2 (List.nodup_cons.mp hpnodup2).2
      (fun a ha b hb => hdisj a (List.mem_cons_of_mem q ha) b (List.mem_cons_of_mem q hb))
    refine ⟨kw2, by simp [applyUps, hpop, happ], hkw2n, fun n => ?_⟩
    rw [hchar n]
    by_cases hpn : q.1 = n
    · have hrest_none : getA n rest = none := by
        rw [getA_eq_none]
        intro hc
        exact (List.nodup_cons.mp hpnodup2).1 (hpn ▸ hc)
      have hsnds : ¬(rest.map Prod.snd).contains n = true := by
        intro hc
        obtain ⟨r, hr, hr2⟩ := List.mem_map.mp (List.elem_iff.mp hc)
        exact hdisj r (List.mem_cons_of_mem q hr) q (List.mem_cons_self q rest)
          (hr2.trans hpn.symm)
      simp only [upsExpectedGet, hrest_none, getA, if_pos hpn, hv]
      rw [if_neg hsnds, ← hpn, getA_dinsert_self]
    · rcases hr : getA n rest with _ | s2
      · by_cases hcon : n ∈ rest.map Prod.snd
        · simp only [upsExpectedGet, hr, getA, if_neg hpn, List.map_cons]
          rw [if_pos (List.elem_iff.mpr hcon),
            if_pos (List.elem_iff.mpr (List.mem_cons_of_mem q.2 hcon))]
        · by_cases hns : n = q.2
          · simp only [upsExpectedGet, hr, getA, if_neg hpn, List.map_cons]
            rw [if_neg (fun hc => hcon (List.elem_iff.mp hc)),
              if_pos (List.elem_iff.mpr (hns ▸ List.mem_cons_self n (rest.map Prod.snd))),
              getA_dinsert_ne _ _ (fun hc => hpn hc)]
            exact hns ▸ popA_getA_self hkw hpop
          · simp only [upsExpectedGet, hr, getA, if_neg hpn, List.map_cons]
            rw [if_neg (fun hc => hcon (List.elem_iff.mp hc)),
              getA_dinsert_ne _ _ (fun hc => hpn hc),
              if_neg (show ¬(q.2 :: rest.map Prod.snd).contains n = true from by
                intro hc
                rcases List.mem_cons.mp (List.elem_iff.mp hc) with hc2 | hc2
                · exact hns hc2
                · exact hcon hc2)]
            exact popA_getA_ne hpop hns
      · have hmem : (n, s2) ∈ rest := getA_mem hr
        have hs2p : s2 ≠ q.1 :=
          hdisj (n, s2) (List.mem_cons_of_mem q hmem) q (List.mem_cons_self q rest)
        have hs2s : s2 ≠ q.2 := by
          intro hc
          exact (List.nodup_cons.mp hsnodup2).1 (hc ▸ List.mem_map.mpr ⟨(n, s2), hmem, rfl⟩)
        simp only [upsExpectedGet, hr, getA, if_neg hpn]
        rw [getA_dinsert_ne _ _ (fun hc => hs2p hc.symm)]
        exact popA_getA_ne hpop hs2s

/-- Unpacking of a successful `expandOne`: the shape of the produced node,
read off the source of `parameterize.expand_node`. -/
theorem expandOne_ok {p : Parameterize} {node_ : Node} {fnDoc : Option String}
    {opz : String × List (String × ParametrizedDependency)} {nd : Node}
    (h : expandOne p node_ fnDoc opz = .ok nd) :
    formatDocString p fnDoc opz.1 = .ok nd.doc_string ∧
      nd.name = opz.1 ∧ nd.type = node_.type ∧ nd.tags = node_.tags ∧
      nd.input_types = newInputTypes opz.2 node_.input_types ∧
      nd.callabl = fun kw =>
        replacementFunction node_.callabl (upsOf opz.2) (litsOf opz.2)
          (updateA (litsOf opz.2) kw) := by
  unfold expandOne at h
  match hf : formatDocString p fnDoc opz.1 with
  | .error e => rw [hf] at h; cases h
  | .ok d =>
    rw [hf] at h
    cases h
    exact ⟨rfl, rfl, rfl, rfl, rfl, rfl⟩

/-- C1 (amended): for every valid parameterization whose referenced upstream
names are pairwise distinct and distinct from the function's parameter
names, invoking the produced node's callable with reference-bound arguments
supplied under the referenced upstream names yields the same result as
invoking the original function directly with those values under the
original parameter names and the literal dependencies' values under their
original parameter names. -/
theorem C1_parameterize_roundtrip
    (p : Parameterize) (node_ : Node) (fnDoc : Option String) (ns : List Node)
    (hexp : parameterizeExpand p node_ fnDoc = .ok ns)
    (i : Nat) (hi : i < p.parametrization.length) (hi2 : i < ns.length)
    (pz : List (String × ParametrizedDependency))
    (hpz : (p.parametrization.get ⟨i, hi⟩).2 = pz)
    (hpznodup : (keysA pz).Nodup)
    (hsneq : ∀ q ∈ upsOf pz, ∀ prm ∈ keysA pz, q.2 ≠ prm)
    (hsnodup : ((upsOf pz).map Prod.snd).Nodup)
    (g : Kwargs → Except Err Val) (hg : node_.callabl = g)
    (hext : ∀ k1 k2 : Kwargs, (∀ n, getA n k1 = getA n k2) → g k1 = g k2)
    (kw : Kwargs) (hkw : (keysA kw).Nodup)
    (hsup : ∀ q ∈ upsOf pz, q.2 ∈ keysA kw)
    (directKw : Kwargs)
    (hdir : ∀ n, getA n directKw = claimDirectGet pz kw n) :
    (ns.get ⟨i, hi2⟩).callabl kw = g directKw := by
  have hone := emapM_ok_get hexp i hi hi2
  obtain ⟨hfmt, hname, htype, htags, hinp, hcall⟩ := expandOne_ok hone
  rw [hpz, hg] at hcall
  rw [hcall]
  have hlitsnodup : (keysA (litsOf pz)).Nodup :=
    List.Nodup.sublist (keysA_litsOf_sublist pz) hpznodup
  have hupsnodup : (keysA (upsOf pz)).Nodup :=
    List.Nodup.sublist (keysA_upsOf_sublist pz) hpznodup
  have hkw0 : (keysA (updateA (litsOf pz) kw)).Nodup :=
    nodup_keysA_updateA (litsOf pz) kw hlitsnodup
  have hsub0 : ∀ q ∈ upsOf pz, q.2 ∈ keysA (updateA (litsOf pz) kw) := by
    intro q hq
    rw [mem_keysA_updateA]
    exact Or.inr (hsup q hq)
  have hdisj0 : ∀ q ∈ upsOf pz, ∀ r ∈ upsOf pz, q.2 ≠ r.1 := by
    intro q hq r hr
    exact hsneq q hq r.1 ((keysA_upsOf_sublist pz).subset (List.mem_map.mpr ⟨r, hr, rfl⟩))
  obtain ⟨kw2, happly, hkw2nodup, hchar⟩ :=
    applyUps_ok (upsOf pz) (updateA (litsOf pz) kw) hkw0 hsub0 hsnodup
      (List.Nodup.sublist (keysA_upsOf_sublist pz) hpznodup) hdisj0
  show replacementFunction g (upsOf pz) (litsOf pz) (updateA (litsOf pz) kw) = g directKw
  unfold replacementFunction
  rw [happly]
  show g (updateA kw2 (litsOf pz)) = g directKw
  apply hext
  intro n
  rw [hdir n, getA_updateA n kw2 (litsOf pz) hlitsnodup, getA_litsOf n pz hpznodup,
    hchar n]
  unfold claimDirectGet upsExpectedGet
  rw [getA_upsOf n pz hpznodup]
  rcases hnpz : getA n pz with _ | d
  · have hnlits : getA n (litsOf pz) = none := by
      rw [getA_eq_none]
      intro hc
      rw [getA_eq_none] at hnpz
      exact hnpz ((keysA_litsOf_sublist pz).subset hc)
    by_cases hcon : ((upsOf pz).map Prod.snd).contains n = true
    · rw [if_pos hcon, if_pos hcon]
    · rw [if_neg hcon, if_neg hcon, getA_updateA n (litsOf pz) kw hkw]
      rcases getA n kw with _ | v
      · exact hnlits
      · rfl
  · match d with
    | .literal v => rfl
    | .upstream s =>
      simp only []
      rw [getA_updateA s (litsOf pz) kw hkw]
      have hslits : getA s (litsOf pz) = none := by
        rw [getA_eq_none]
        intro hc
        have hqmem : (n, s) ∈ upsOf pz := by
          have := getA_upsOf n pz hpznodup
          rw [hnpz] at this
          exact getA_mem this
        exact hsneq (n, s) hqmem s ((keysA_litsOf_sublist pz).subset hc) rfl
      rw [hslits]
      rcases getA s kw with _ | v <;> rfl

theorem exampleAdd_ext (k1 k2 : Kwargs) (h : ∀ n, getA n k1 = getA n k2) :
    exampleAdd k1 = exampleAdd k2 := by
  unfold exampleAdd
  rw [h "a", h "b"]

theorem exampleDirect_get (n : String) :
    getA n [("a", Val.vint 1), ("b", Val.vint 5)]
      = claimDirectGet [("a", .literal (.vint 1)), ("b", .upstream "n2")]
          [("n2", Val.vint 5)] n := by
  by_cases ha : "a" = n
  · simp [getA, claimDirectGet, upsOf, litsOf, ha]
  · by_cases hb : "b" = n
    · simp [getA, claimDirectGet, upsOf, litsOf, if_neg ha, hb]
    · by_cases hn2 : "n2" = n
      · simp [getA, claimDirectGet, upsOf, litsOf, if_neg ha, if_neg hb, hn2]
      · simp [getA, claimDirectGet, upsOf, litsOf, if_neg ha, if_neg hb, if_neg hn2]

/-- Witness for C1 at the claim's own example: the produced node out1 called
with n2 = 5 equals the original function called with a = 1, b = 5, which is
6. -/
theorem C1_roundtrip_witness :
    ∃ ns, parameterizeExpand exampleParameterize exampleNode none = .ok ns ∧
      ∃ hlen : 0 < ns.length,
        (ns.get ⟨0, hlen⟩).callabl [("n2", .vint 5)]
            = exampleAdd [("a", .vint 1), ("b", .vint 5)]
          ∧ exampleAdd [("a", .vint 1), ("b", .vint 5)] = .ok (.vint 6) := by
  refine ⟨_, rfl, by decide, ?_, rfl⟩
  exact C1_parameterize_roundtrip exampleParameterize exampleNode none _ rfl 0 (by decide)
    (by decide) [("a", .literal (.vint 1)), ("b", .upstream "n2")] rfl (by decide)
    (by decide) (by decide) exampleAdd rfl exampleAdd_ext [("n2", .vint 5)] (by decide)
    (by decide) [("a", .vint 1), ("b", .vint 5)] exampleDirect_get

/-- Counterexample to C1 as stated: the produced node out1 requires inputs b
and n; supplying the reference-bound arguments under the referenced names
(b = 5, the value for parameter a, and n = 7, the value for parameter b)
raises a TypeError inside the callable, while the direct call
f(a = 5, b = 7) returns -2, so the two are not equal. -/
theorem C1_counterexample :
    ((parameterizeExpand cexParameterize cexNode none).toOption.bind List.head?).map
        (fun nd => nd.callabl [("b", Val.vint 5), ("n", Val.vint 7)])
      = some (.error (.typeError "missing a required argument"))
    ∧ cexSub [("a", Val.vint 5), ("b", Val.vint 7)] = .ok (.vint (-2))
    ∧ (Except.error (Err.typeError "missing a required argument") : Except Err Val)
        ≠ .ok (.vint (-2)) := by
  refine ⟨rfl, rfl, fun h => ?_⟩
  cases h

theorem expectedInputTypes_cons (pz : List (String × ParametrizedDependency))
    (pt : String × Ty) (t : List (String × Ty)) :
    expectedInputTypes pz (pt :: t) =
      (match getA pt.1 (upsOf pz) with
       | some src => (src, pt.2) :: expectedInputTypes pz t
       | none =>
         if (keysA (litsOf pz)).contains pt.1 then expectedInputTypes pz t
         else pt :: expectedInputTypes pz t) := by
  unfold expectedInputTypes
  rw [List.filterMap_cons]
  rcases getA pt.1 (upsOf pz) with _ | src
  · by_cases h : (keysA (litsOf pz)).contains pt.1 = true
    · rw [if_pos h, if_pos h]
    · rw [if_neg h, if_neg h]
  · rfl

theorem newInputTypes_fold (pz : List (String × ParametrizedDependency))
    (l : List (String × Ty)) (acc : List (String × Ty))
    (hl : (keysA l).Nodup)
    (h2 : ∀ k ∈ keysA l, k ∉ keysA acc)
    (h3 : ∀ q ∈ upsOf pz, q.2 ∉ keysA l ∧ (q.1 ∈ keysA l → q.2 ∉ keysA acc))
    (h4 : ((upsOf pz).map Prod.snd).Nodup) :
    l.foldl (fun acc pt =>
      match getA pt.1 (upsOf pz) with
      | some src => dinsert src pt.2 acc
      | none =>
        if (keysA (litsOf pz)).contains pt.1 then acc
        else dinsert pt.1 pt.2 acc) acc
    = acc ++ expectedInputTypes pz l := by
  induction l generalizing acc with
  | nil => simp [expectedInputTypes]
  | cons pt t ih =>
    have hl2 : (keysA t).Nodup := (List.nodup_cons.mp (by simpa [keysA] using hl)).2
    have hhead : pt.1 ∉ keysA t := (List.nodup_cons.mp (by simpa [keysA] using hl)).1
    have hmemk : pt.1 ∈ keysA (pt :: t) := by simp [keysA]
    have hkt : ∀ k ∈ keysA t, k ∈ keysA (pt :: t) := by
      intro k hk
      simp only [keysA, List.map_cons, List.mem_cons]
      exact Or.inr hk
    simp only [List.foldl_cons, expectedInputTypes_cons]
    rcases hsc : getA pt.1 (upsOf pz) with _ | src
    · simp only [hsc]
      by_cases hlit : (keysA (litsOf pz)).contains pt.1 = true
      · rw [if_pos hlit, if_pos hlit]
        exact ih acc hl2
          (fun k hk => h2 k (hkt k hk))
          (fun q hq => ⟨fun hc => (h3 q hq).1 (hkt q.2 hc),
            fun hc => (h3 q hq).2 (hkt q.1 hc)⟩)
      · rw [if_neg hlit, if_neg hlit]
        have hptacc : pt.1 ∉ keysA acc := h2 pt.1 hmemk
        have hh2 : ∀ k ∈ keysA t, k ∉ keysA (acc ++ [(pt.1, pt.2)]) := by
          intro k hk
          rw [keysA_append]
          intro hc
          rcases List.mem_append.mp hc with hc2 | hc2
          · exact h2 k (hkt k hk) hc2
          · simp only [keysA, List.map_cons, List.map_nil, List.mem_singleton] at hc2
            exact hhead (hc2 ▸ hk)
        have hh3 : ∀ q ∈ upsOf pz, q.2 ∉ keysA t
            ∧ (q.1 ∈ keysA t → q.2 ∉ keysA (acc ++ [(pt.1, pt.2)])) := by
          intro q hq
          refine ⟨fun hc => (h3 q hq).1 (hkt q.2 hc), fun hc hc2 => ?_⟩
          rw [keysA_append] at hc2
          rcases List.mem_append.mp hc2 with hc3 | hc3
          · exact (h3 q hq).2 (hkt q.1 hc) hc3
          · simp only [keysA, List.map_cons, List.map_nil, List.mem_singleton] at hc3
            exact (h3 q hq).1 (hc3 ▸ hmemk)
        rw [dinsert_of_not_mem pt.2 hptacc, ih (acc ++ [(pt.1, pt.2)]) hl2 hh2 hh3]
        simp [List.append_assoc]
    · simp only [hsc]
      have hq : (pt.1, src) ∈ upsOf pz := getA_mem hsc
      have hsrcacc : src ∉ keysA acc := (h3 _ hq).2 hmemk
      have hg2 : ∀ k ∈ keysA t, k ∉ keysA (acc ++ [(src, pt.2)]) := by
        intro k hk
        rw [keysA_append]
        intro hc
        rcases List.mem_append.mp hc with hc2 | hc2
        · exact h2 k (hkt k hk) hc2
        · simp only [keysA, List.map_cons, List.map_nil, List.mem_singleton] at hc2
          exact (h3 _ hq).1 (hc2 ▸ hkt k hk)
      have hg3 : ∀ q ∈ upsOf pz, q.2 ∉ keysA t
          ∧ (q.1 ∈ keysA t → q.2 ∉ keysA (acc ++ [(src, pt.2)])) := by
        intro q hq2
        refine ⟨fun hc => (h3 q hq2).1 (hkt q.2 hc), fun hc hc2 => ?_⟩
        rw [keysA_append] at hc2
        rcases List.mem_append.mp hc2 with hc3 | hc3
        · exact (h3 q hq2).2 (hkt q.1 hc) hc3
        · simp only [keysA, List.map_cons, List.map_nil, List.mem_singleton] at hc3
          have hne : q.1 ≠ pt.1 := fun hc4 => hhead (hc4 ▸ hc)
          have heq : q = (pt.1, src) :=
            List.inj_on_of_nodup_map h4 hq2 hq (by simpa using hc3)
          exact hne (by rw [heq])
      rw [dinsert_of_not_mem pt.2 hsrcacc, ih (acc ++ [(src, pt.2)]) hl2 hg2 hg3]
      simp [List.append_assoc]

theorem newInputTypes_eq (pz : List (String × ParametrizedDependency))
    (inputs : List (String × Ty))
    (hin : (keysA inputs).Nodup)
    (hfresh : ∀ q ∈ upsOf pz, q.2 ∉ keysA inputs)
    (h4 : ((upsOf pz).map Prod.snd).Nodup) :
    newInputTypes pz inputs = expectedInputTypes pz inputs := by
  unfold newInputTypes
  have := newInputTypes_fold pz inputs [] hin
    (fun k _ hc => by simp [keysA] at hc)
    (fun q hq => ⟨hfresh q hq, fun _ hc => by simp [keysA] at hc⟩) h4
  simpa using this

/-- C2 (amended): for every valid parameterization, expansion produces
exactly one node per declared output, each with the base node's type and a
copy of its tag mapping; and, provided the referenced upstream names are
pairwise distinct and distinct from the function's parameter names, the
produced input-type mapping contains an entry keyed by the referenced name
holding the original parameter's declared type for every reference-bound
parameter, contains no key equal to any literal-bound original parameter
name, and passes every untouched parameter through unchanged. -/
theorem C2_parameterize_expand_shape
    (p : Parameterize) (node_ : Node) (fnDoc : Option String) (ns : List Node)
    (hexp : parameterizeExpand p node_ fnDoc = .ok ns) :
    ns.length = p.parametrization.length ∧
    ∀ (i : Nat) (hi : i < p.parametrization.length) (hi2 : i < ns.length)
      (pz : List (String × ParametrizedDependency)),
      (p.parametrization.get ⟨i, hi⟩).2 = pz →
      (ns.get ⟨i, hi2⟩).name = (p.parametrization.get ⟨i, hi⟩).1
      ∧ (ns.get ⟨i, hi2⟩).type = node_.type
      ∧ (ns.get ⟨i, hi2⟩).tags = node_.tags
      ∧ ((keysA node_.input_types).Nodup →
         ((upsOf pz).map Prod.snd).Nodup →
         (∀ q ∈ upsOf pz, q.2 ∉ keysA node_.input_types) →
         (∀ prm ∈ keysA pz, prm ∈ keysA node_.input_types) →
         ((∀ prm src ty, getA prm (upsOf pz) = some src →
             getA prm node_.input_types = some ty →
             (src, ty) ∈ (ns.get ⟨i, hi2⟩).input_types)
          ∧ (∀ prm ∈ keysA (litsOf pz), prm ∉ keysA (ns.get ⟨i, hi2⟩).input_types)
          ∧ (∀ pt ∈ node_.input_types, pt.1 ∉ keysA pz →
              pt ∈ (ns.get ⟨i, hi2⟩).input_types))) := by
  refine ⟨emapM_ok_length hexp, ?_⟩
  intro i hi hi2 pz hpz
  have hone := emapM_ok_get hexp i hi hi2
  obtain ⟨hfmt, hname, htype, htags, hinp, hcall⟩ := expandOne_ok hone
  rw [hpz] at hinp
  refine ⟨hname, htype, htags, ?_⟩
  intro hin h4 hfresh hsub
  rw [hinp, newInputTypes_eq pz node_.input_types hin hfresh h4]
  refine ⟨?_, ?_, ?_⟩
  · intro prm src ty hups hty
    unfold expectedInputTypes
    rw [List.mem_filterMap]
    refine ⟨(prm, ty), getA_mem hty, ?_⟩
    simp only [hups]
  · intro prm hprm hc
    simp only [keysA] at hc
    obtain ⟨e, he, hek⟩ := List.mem_map.mp hc
    unfold expectedInputTypes at he
    obtain ⟨pt, hpt, hf⟩ := List.mem_filterMap.mp he
    rcases hups : getA pt.1 (upsOf pz) with _ | src
    · rw [hups] at hf
      by_cases hlit : (keysA (litsOf pz)).contains pt.1 = true
      · rw [if_pos hlit] at hf
        cases hf
      · rw [if_neg hlit] at hf
        cases hf
        exact hlit (List.elem_iff.mpr (hek ▸ hprm))
    · rw [hups] at hf
      cases hf
      have hq : (pt.1, src) ∈ upsOf pz := getA_mem hups
      apply hfresh (pt.1, src) hq
      have : prm ∈ keysA pz := (keysA_litsOf_sublist pz).subset hprm
      simp only [← hek] at this
      exact hsub src (by simpa using this)
  · intro pt hpt hout
    unfold expectedInputTypes
    rw [List.mem_filterMap]
    refine ⟨pt, hpt, ?_⟩
    have hups : getA pt.1 (upsOf pz) = none := by
      rw [getA_eq_none]
      intro hc
      exact hout ((keysA_upsOf_sublist pz).subset hc)
    have hlit : ¬(keysA (litsOf pz)).contains pt.1 = true := by
      intro hc
      exact hout ((keysA_litsOf_sublist pz).subset (List.elem_iff.mp hc))
    rw [hups, if_neg hlit]

/-- Counterexample to C2 as stated: for the valid parameterization with a
bound to source(b) and b bound to value(1), the produced node's input-type
mapping is exactly the singleton b : int — its only key equals the
literal-bound original parameter name b, which the claim says can never be
a key. -/
theorem C2_counterexample :
    ((parameterizeExpand cex2Parameterize cex2Node none).toOption.bind List.head?).map
        Node.input_types = some [("b", Ty.tint)]
    ∧ "b" ∈ keysA [("b", Ty.tint)] := by
  refine ⟨rfl, by simp [keysA]⟩

/-- Witness for C2 at the running example: one node is produced; it has an
entry n2 : int for the reference-bound parameter b, no entry keyed by the
literal-bound parameter a, and the base node's declared type. -/
theorem C2_expand_shape_witness :
    ∃ ns, parameterizeExpand exampleParameterize exampleNode none = .ok ns ∧
      ns.length = 1 ∧
      ∃ hlen : 0 < ns.length,
        ("n2", Ty.tint) ∈ (ns.get ⟨0, hlen⟩).input_types
        ∧ "a" ∉ keysA (ns.get ⟨0, hlen⟩).input_types
        ∧ (ns.get ⟨0, hlen⟩).type = Ty.tint := by
  refine ⟨_, rfl, ?_, by decide, ?_, ?_, ?_⟩
  · exact (C2_parameterize_expand_shape exampleParameterize exampleNode none _ rfl).1
  · exact ((((C2_parameterize_expand_shape exampleParameterize exampleNode none _ rfl).2
      0 (by decide) (by decide) [("a", .literal (.vint 1)), ("b", .upstream "n2")]
      rfl).2.2.2 (by decide) (by decide) (by decide) (by decide)).1 "b" "n2" Ty.tint
      rfl rfl)
  · exact ((((C2_parameterize_expand_shape exampleParameterize exampleNode none _ rfl).2
      0 (by decide) (by decide) [("a", .literal (.vint 1)), ("b", .upstream "n2")]
      rfl).2.2.2 (by decide) (by decide) (by decide) (by decide)).2.1 "a" (by decide))
  · exact (((C2_parameterize_expand_shape exampleParameterize exampleNode none _ rfl).2
      0 (by decide) (by decide) [("a", .literal (.vint 1)), ("b", .upstream "n2")]
      rfl).2.1)

/-! ### Claims C3 and C9: docstring templating -/

theorem getA_mapVal {α β : Type} (f : α → β) (k : String) (l : List (String × α)) :
    getA k (l.map (fun q => (q.1, f q.2))) = (getA k l).map f := by
  induction l with
  | nil => rfl
  | cons p t ih => by_cases h : p.1 = k <;> simp [getA, h, ih]

theorem keysA_mapVal {α β : Type} (f : α → β) (l : List (String × α)) :
    keysA (l.map (fun q => (q.1, f q.2))) = keysA l := by
  induction l with
  | nil => rfl
  | cons p t ih =>
    simp only [List.map_cons, keysA] at ih ⊢
    rw [ih]

theorem nodup_keys_ups_lits (pz : List (String × ParametrizedDependency))
    (hn : (keysA pz).Nodup) :
    (keysA (upsOf pz) ++ keysA (litsOf pz)).Nodup := by
  rw [List.nodup_append]
  refine ⟨List.Nodup.sublist (keysA_upsOf_sublist pz) hn,
    List.Nodup.sublist (keysA_litsOf_sublist pz) hn, ?_⟩
  intro a ha hb
  have h1 := (getA_isSome a (upsOf pz)).mpr ha
  have h2 := (getA_isSome a (litsOf pz)).mpr hb
  rw [getA_upsOf a pz hn] at h1
  rw [getA_litsOf a pz hn] at h2
  rcases h : getA a pz with _ | d
  · rw [h] at h1
    simp at h1
  · rw [h] at h1 h2
    cases d
    · simp at h1
    · simp at h2

theorem mem_keysA_ups_lits_iff (pz : List (String × ParametrizedDependency)) (a : String) :
    a ∈ keysA pz ↔ a ∈ keysA (upsOf pz) ∨ a ∈ keysA (litsOf pz) := by
  induction pz with
  | nil => simp [upsOf, litsOf, keysA]
  | cons p t ih =>
    rcases p with ⟨k, d⟩
    cases d with
    | literal v =>
      rw [upsOf_cons_lit, litsOf_cons_lit]
      simp only [keysA, List.map_cons, List.mem_cons]
      simp only [keysA] at ih
      tauto
    | upstream s =>
      rw [upsOf_cons_up, litsOf_cons_up]
      simp only [keysA, List.map_cons, List.mem_cons]
      simp only [keysA] at ih
      tauto

/-- When no parameter is named output_name, the `IdentityDict` construction
of `format_doc_string` succeeds and its lookups are characterised by the
parameter mapping: the reserved key maps to the output name, a literal-bound
parameter to the str of its literal, a reference-bound parameter to its
referenced name. -/
theorem mkFormatMapping_ok (out : String) (pz : List (String × ParametrizedDependency))
    (hn : (keysA pz).Nodup) (hres : "output_name" ∉ keysA pz) :
    ∃ fm, mkFormatMapping out pz = .ok fm ∧
      ∀ u, getA u fm =
        match getA u pz with
        | some (.literal v) => some v.pyStr
        | some (.upstream s) => some s
        | none => if "output_name" = u then some out else none := by
  have hmerged : ∀ a,
      a ∈ keysA (updateA (upsOf pz) ((litsOf pz).map (fun q => (q.1, q.2.pyStr))))
        ↔ a ∈ keysA pz := by
    intro a
    rw [mem_keysA_updateA, keysA_mapVal]
    exact (mem_keysA_ups_lits_iff pz a).symm
  have hcon : ¬((keysA (updateA (upsOf pz)
      ((litsOf pz).map (fun q => (q.1, q.2.pyStr))))).contains "output_name" = true) := by
    intro hc
    exact hres ((hmerged "output_name").mp (List.elem_iff.mp hc))
  refine ⟨("output_name", out)
      :: updateA (upsOf pz) ((litsOf pz).map (fun q => (q.1, q.2.pyStr))), ?_, ?_⟩
  · unfold mkFormatMapping
    rw [if_neg hcon]
  · intro u
    have hlitsnodup : (keysA ((litsOf pz).map (fun q => (q.1, q.2.pyStr)))).Nodup := by
      rw [keysA_mapVal]
      exact List.Nodup.sublist (keysA_litsOf_sublist pz) hn
    by_cases ho : "output_name" = u
    · have h1 : getA u pz = none := by
        rw [getA_eq_none]
        rw [← ho]
        exact hres
      simp only [getA, if_pos ho, h1]
    · simp only [getA, if_neg ho]
      rw [getA_updateA u _ _ hlitsnodup, getA_mapVal, getA_litsOf u pz hn,
        getA_upsOf u pz hn]
      rcases hq : getA u pz with _ | d
      · simp [hq, ho]
      · cases d <;> simp [hq]

/-- The formatting branch of `format_doc_string` once the override and the
parametrization lookups and the IdentityDict construction are fixed. -/
theorem formatDocString_eq (p : Parameterize) (tpl : String) (out : String)
    (pz : List (String × ParametrizedDependency)) (fm : List (String × String))
    (hov : getA out p.specified_docstrings = none)
    (hpz : getA out p.parametrization = some pz)
    (hfm : mkFormatMapping out pz = .ok fm) :
    formatDocString p (some tpl) out =
      match pyFormat fm tpl with
      | .error e => .error e
      | .ok s => .ok (some s) := by
  unfold formatDocString
  rw [hov, hpz]
  show (match mkFormatMapping out pz with
        | Except.error e => Except.error e
        | Except.ok fm =>
          match pyFormat fm tpl with
          | Except.error e => Except.error e
          | Except.ok s => Except.ok (some s))
      = match pyFormat fm tpl with
        | Except.error e => Except.error e
        | Except.ok s => Except.ok (some s)
  rw [hfm]

/-- When the IdentityDict construction of `format_doc_string` raises, the
whole call raises the same error. -/
theorem formatDocString_err (p : Parameterize) (tpl : String) (out : String)
    (pz : List (String × ParametrizedDependency)) (e : Err)
    (hov : getA out p.specified_docstrings = none)
    (hpz : getA out p.parametrization = some pz)
    (hfm : mkFormatMapping out pz = .error e) :
    formatDocString p (some tpl) out = .error e := by
  unfold formatDocString
  rw [hov, hpz]
  show (match mkFormatMapping out pz with
        | Except.error e => Except.error e
        | Except.ok fm =>
          match pyFormat fm tpl with
          | Except.error e => Except.error e
          | Except.ok s => Except.ok (some s))
      = Except.error e
  rw [hfm]

/-- A simple named field formats to its mapping value, a missing one to its
own name, stated through `Option.getD`. -/
theorem fieldValue_getD (m : List (String × String)) (u : String)
    (hu : simpleName u = true) :
    fieldValue m u.data = .ok ((getA u m).getD u).data := by
  rw [fieldValue_simple m u hu]
  rcases getA u m with _ | v <;> rfl

/-- `format_map` over a whole template in the simple-field fragment, with
any number of replacement fields: every text run passes through and every
field is replaced by its IdentityDict value. -/
theorem pyFmtM_segments (m : List (String × String)) (tl : List TplSeg)
    (hgood : goodTpl tl = true) :
    pyFmtM m .text (renderTpl tl).data = .ok (substTplM m tl).data := by
  induction tl with
  | nil => rfl
  | cons seg t ih =>
    cases seg with
    | txt s =>
      have hs : braceFree s = true ∧ goodTpl t = true := by
        simpa [goodTpl, Bool.and_eq_true] using hgood
      simp only [renderTpl, substTplM, String.data_append]
      rw [pyFmtM_text_append m s.data _ hs.1, ih hs.2]
      rfl
    | hole u =>
      have hs : simpleName u = true ∧ goodTpl t = true := by
        simpa [goodTpl, Bool.and_eq_true] using hgood
      have hu0 : u.data ≠ [] := by
        intro hc
        have := (simpleName_spec hs.1).1
        rw [hc] at this
        simp at this
      have hfv : fieldValue m u.data = .ok ((getA u m).getD u).data :=
        fieldValue_getD m u hs.1
      have hdata : (renderTpl (TplSeg.hole u :: t)).data
          = [] ++ lbraceC :: (u.data ++ rbraceC :: (renderTpl t).data) := by
        simp only [renderTpl]
        simp [String.data_append, List.append_assoc]
      rw [hdata, pyFmtM_template m [] u.data (renderTpl t).data rfl
        (simpleName_spec hs.1).2.1 hu0 ⟨_, hfv⟩, hfv, ih hs.2]
      simp only [substTplM]
      simp [emapApp, String.data_append]

/-- Formatting under a mapping with the `mkFormatMapping_ok` lookups agrees
segmentwise with the substitution the claim specifies. -/
theorem substTplM_eq (out : String) (pz : List (String × ParametrizedDependency))
    (m : List (String × String))
    (hchar : ∀ u, getA u m =
      match getA u pz with
      | some (.literal v) => some v.pyStr
      | some (.upstream s) => some s
      | none => if "output_name" = u then some out else none)
    (tl : List TplSeg) :
    substTplM m tl = substTpl out pz tl := by
  induction tl with
  | nil => rfl
  | cons seg t ih =>
    cases seg with
    | txt s => simp only [substTplM, substTpl, ih]
    | hole u =>
      simp only [substTplM, substTpl, ih]
      have hhead : (getA u m).getD u = claimSubst out pz u := by
        rw [hchar u]
        unfold claimSubst
        rcases hq : getA u pz with _ | d
        · by_cases ho : "output_name" = u
          · rw [if_pos ho, if_pos ho]
            rfl
          · rw [if_neg ho, if_neg ho]
            rfl
        · cases d <;> rfl
      rw [hhead]

/-- C3 (amended): with no explicit override, a non-None template made of
brace-free text and simple replacement fields (in any number), and no
parameter named output_name (a parameter so named makes the IdentityDict
construction raise a TypeError for a duplicate keyword argument), formatting
succeeds and substitutes every placeholder: the reserved output_name
placeholder with the output's name, a literal-bound parameter placeholder
with the str of its literal value, a reference-bound parameter placeholder
with the referenced name, and any other placeholder with its bare name —
the braces are stripped, and no error is raised. -/
theorem C3_format_doc_string
    (p : Parameterize) (out : String) (pz : List (String × ParametrizedDependency))
    (tl : List TplSeg)
    (hgood : goodTpl tl = true)
    (hov : getA out p.specified_docstrings = none)
    (hpz : getA out p.parametrization = some pz)
    (hn : (keysA pz).Nodup)
    (hres : "output_name" ∉ keysA pz) :
    formatDocString p (some (renderTpl tl)) out = .ok (some (substTpl out pz tl)) := by
  obtain ⟨fm, hfm, hchar⟩ := mkFormatMapping_ok out pz hn hres
  rw [formatDocString_eq p _ out pz fm hov hpz hfm]
  unfold pyFormat
  rw [pyFmtM_segments fm tl hgood, substTplM_eq out pz fm hchar tl]

/-- Counterexample to C3 as stated: the template consisting solely of the
unmatched placeholder (left brace)unknown(right brace) formats to the bare
string unknown — the braces are stripped rather than kept. -/
theorem C3_counterexample :
    formatDocString cex3Parameterize (some "\x7bunknown\x7d") "out" = .ok (some "unknown")
    ∧ (some "unknown" : Option String) ≠ some "\x7bunknown\x7d" := by
  exact ⟨rfl, by decide⟩

/-- Witness for C3: a multi-placeholder template in the style of the
decorator's own documented docstring, exercising all four substitution
cases at once — a literal-bound parameter, a reference-bound parameter, the
reserved output_name placeholder, and an unknown placeholder. -/
theorem C3_format_doc_string_witness :
    formatDocString exampleParameterize
        (some (renderTpl [.txt "Adding ", .hole "a", .txt " to ", .hole "b",
          .txt " to create ", .hole "output_name", .txt " with ", .hole "unknown",
          .txt "."]))
        "out1"
      = .ok (some "Adding 1 to n2 to create out1 with unknown.") := by
  have h := C3_format_doc_string exampleParameterize "out1"
    [("a", .literal (.vint 1)), ("b", .upstream "n2")]
    [.txt "Adding ", .hole "a", .txt " to ", .hole "b", .txt " to create ",
      .hole "output_name", .txt " with ", .hole "unknown", .txt "."]
    (by decide) rfl rfl (by decide) (by decide)
  rw [h]
  rfl

/-- C9 (amended): docstring templating is idempotent whenever one round of
formatting succeeds with a result free of brace characters (in particular on
templates whose only placeholders have no matching key and no brace
escapes): formatting the result again returns it unchanged. -/
theorem C9_format_idempotent
    (p : Parameterize) (doc : Option String) (out : String) (r : Option String)
    (h1 : formatDocString p doc out = .ok r)
    (h2 : ∀ s, r = some s → braceFree s = true) :
    formatDocString p r out = .ok r := by
  rcases hov : getA out p.specified_docstrings with _ | d
  · rcases doc with _ | tpl
    · have hnone : formatDocString p none out = .ok none := by
        unfold formatDocString
        rw [hov]
      rw [hnone] at h1
      cases h1
      exact hnone
    · rcases hpz : getA out p.parametrization with _ | pz
      · have herr : formatDocString p (some tpl) out = .error (.keyError out) := by
          unfold formatDocString
          rw [hov, hpz]
        rw [herr] at h1
        cases h1
      · rcases hfm : mkFormatMapping out pz with e0 | fm
        · rw [formatDocString_err p tpl out pz e0 hov hpz hfm] at h1
          cases h1
        · rw [formatDocString_eq p tpl out pz fm hov hpz hfm] at h1
          rcases hpf : pyFormat fm tpl with e | s
          · rw [hpf] at h1
            cases h1
          · rw [hpf] at h1
            cases h1
            rw [formatDocString_eq p s out pz fm hov hpz hfm]
            have hid : pyFormat fm s = .ok s := by
              unfold pyFormat
              rw [pyFmtM_text_braceFree _ s.data (h2 s rfl)]
            rw [hid]
  · have hd : formatDocString p doc out = .ok (some d) := by
      unfold formatDocString
      rw [hov]
    rw [hd] at h1
    cases h1
    unfold formatDocString
    rw [hov]

/-- Counterexample to C9 as stated: the template consisting of the escaped
braces around the word unknown formats once to the braced placeholder and a
second time to the bare word, so formatting twice differs from formatting
once. -/
theorem C9_counterexample :
    formatDocString cex3Parameterize (some "\x7b\x7bunknown\x7d\x7d") "out"
        = .ok (some "\x7bunknown\x7d")
    ∧ formatDocString cex3Parameterize (some "\x7bunknown\x7d") "out"
        = .ok (some "unknown")
    ∧ (Except.ok (some "unknown") : Except Err (Option String))
        ≠ .ok (some "\x7bunknown\x7d") := by
  refine ⟨rfl, rfl, fun h => ?_⟩
  injection h with h2
  injection h2 with h3
  exact absurd h3 (by decide)

/-- Witness for C9: one round of formatting a brace-free template succeeds
unchanged, and a second round returns the same string. -/
theorem C9_format_idempotent_witness :
    formatDocString exampleParameterize (some "abc") "out1" = .ok (some "abc") :=
  C9_format_idempotent exampleParameterize (some "abc") "out1" (some "abc") rfl
    (fun s hs => by cases hs; rfl)

/-! ### Claims C5, C6, C10: extraction -/

/-- C10: every per-field node produced by `extract_fields` declares its one
input, keyed by the base node's name, with the bare dict type — whatever the
base node's (possibly parameterized) declared type is — while every
per-column node produced by `extract_columns` declares its one input with
the base node's declared table type. -/
theorem C10_extract_input_types
    (nodeF nodeC : Node) (ef : ExtractFields) (ec : ExtractColumns)
    (i : Nat) (hi : i < ef.fields.length) (j : Nat) (hj : j < ec.columns.length) :
    (∃ nd, (extractFieldsExpand ef nodeF).get? (i + 1) = some nd
      ∧ nd.input_types = [(nodeF.name, Ty.dict)])
    ∧ ∃ nd2, (extractColumnsExpand ec nodeC).get? (j + 1) = some nd2
      ∧ nd2.input_types = [(nodeC.name, nodeC.type)] := by
  constructor
  · have h1 : (extractFieldsExpand ef nodeF).get? (i + 1)
        = (ef.fields.get? i).map (fun fld =>
            { name := fld.1
              type := fld.2
              doc_string := nodeF.doc_string
              callabl := fieldExtractor nodeF.name fld.1
              input_types := [(nodeF.name, Ty.dict)]
              tags := nodeF.tags }) := by
      unfold extractFieldsExpand
      rw [List.get?_cons_succ, List.get?_map]
    rw [h1, List.get?_eq_get hi]
    exact ⟨_, rfl, rfl⟩
  · have h1 : (extractColumnsExpand ec nodeC).get? (j + 1)
        = (ec.columns.get? j).map (fun c =>
            { name := c.colName
              type := columnTypeOfDfType nodeC.type
              doc_string := c.docOr nodeC.doc_string
              callabl := columnExtractor nodeC.name c.colName
              input_types := [(nodeC.name, nodeC.type)]
              tags := nodeC.tags }) := by
      unfold extractColumnsExpand
      rw [List.get?_cons_succ, List.get?_map]
    rw [h1, List.get?_eq_get hj]
    exact ⟨_, rfl, rfl⟩

/-- Witness for C10: the per-field node of a function annotated
Dict[str, int] declares its input as bare dict, and the per-column node of a
dataframe function declares its input as the dataframe type. -/
theorem C10_extract_input_types_witness :
    (∃ nd, (extractFieldsExpand exampleExtractFields exampleFieldsNode).get? 1 = some nd
      ∧ nd.input_types = [("d", Ty.dict)])
    ∧ ∃ nd2, (extractColumnsExpand exampleExtractColumns exampleDfNode).get? 1 = some nd2
      ∧ nd2.input_types = [("t", Ty.dataframe)] :=
  C10_extract_input_types exampleFieldsNode exampleDfNode exampleExtractFields
    exampleExtractColumns 0 (by decide) 0 (by decide)

theorem columnExtractor_absent (producer col : String) (kw : Kwargs)
    (cols : List (Label × Val))
    (hkw : getA producer kw = some (.vdf cols))
    (habs : (dfLabels cols).contains (Label.str col) = false) :
    columnExtractor producer col kw
      = .error (.invalidDecorator (noSuchColumnMsg col producer (dfLabels cols))) := by
  unfold columnExtractor
  rw [hkw]
  show (if (dfLabels cols).contains (Label.str col) = true then Except.ok (getColumn cols col)
      else Except.error (Err.invalidDecorator (noSuchColumnMsg col producer (dfLabels cols))))
    = Except.error (Err.invalidDecorator (noSuchColumnMsg col producer (dfLabels cols)))
  rw [if_neg (Bool.eq_false_iff.mp habs)]

theorem fieldExtractor_absent (producer field : String) (kw : Kwargs)
    (fs : List (String × Val))
    (hkw : getA producer kw = some (.vdict fs))
    (habs : getA field fs = none) :
    fieldExtractor producer field kw
      = .error (.invalidDecorator (noSuchFieldMsg field producer (keysA fs))) := by
  unfold fieldExtractor
  rw [hkw]
  show (match getA field fs with
      | some fv => Except.ok fv
      | none => Except.error (Err.invalidDecorator (noSuchFieldMsg field producer (keysA fs))))
    = Except.error (Err.invalidDecorator (noSuchFieldMsg field producer (keysA fs)))
  rw [habs]

/-- C5: a declared column or field absent from the container produced at
node-invocation time, with no fill value configured, makes the per-column
or per-field extractor's callable raise an extraction error — not the
expansion, which always succeeds and produces one node per declaration plus
the container node — and the error message names the requested column or
field and lists the labels or keys actually present. -/
theorem C5_extraction_error
    (nodeC : Node) (ec : ExtractColumns) (hfc : ec.fill_with = none)
    (i : Nat) (hic : i < ec.columns.length) (c : ColumnDecl)
    (hc : ec.columns.get ⟨i, hic⟩ = c)
    (cols : List (Label × Val)) (kwc : Kwargs)
    (hkwc : getA nodeC.name kwc = some (.vdf cols))
    (habsc : (dfLabels cols).contains (Label.str c.colName) = false)
    (nodeF : Node) (ef : ExtractFields) (hff : ef.fill_with = none)
    (j : Nat) (hjf : j < ef.fields.length) (fld : String × Ty)
    (hfld : ef.fields.get ⟨j, hjf⟩ = fld)
    (fs : List (String × Val)) (kwf : Kwargs)
    (hkwf : getA nodeF.name kwf = some (.vdict fs))
    (habsf : getA fld.1 fs = none) :
    ((extractColumnsExpand ec nodeC).length = ec.columns.length + 1
      ∧ (∃ nd, (extractColumnsExpand ec nodeC).get? (i + 1) = some nd
          ∧ nd.callabl kwc
            = .error (.invalidDecorator (noSuchColumnMsg c.colName nodeC.name (dfLabels cols))))
      ∧ (∃ s1 s2, noSuchColumnMsg c.colName nodeC.name (dfLabels cols)
          = s1 ++ c.colName ++ s2)
      ∧ (∃ s3 s4, noSuchColumnMsg c.colName nodeC.name (dfLabels cols)
          = s3 ++ renderLabels (dfLabels cols) ++ s4))
    ∧ ((extractFieldsExpand ef nodeF).length = ef.fields.length + 1
      ∧ (∃ nd2, (extractFieldsExpand ef nodeF).get? (j + 1) = some nd2
          ∧ nd2.callabl kwf
            = .error (.invalidDecorator (noSuchFieldMsg fld.1 nodeF.name (keysA fs))))
      ∧ (∃ t1 t2, noSuchFieldMsg fld.1 nodeF.name (keysA fs) = t1 ++ fld.1 ++ t2)
      ∧ (∃ t3 t4, noSuchFieldMsg fld.1 nodeF.name (keysA fs)
          = t3 ++ pyReprKeys (keysA fs) ++ t4)) := by
  refine ⟨⟨?_, ?_, ?_, ?_⟩, ?_, ?_, ?_, ?_⟩
  · simp [extractColumnsExpand]
  · have h1 : (extractColumnsExpand ec nodeC).get? (i + 1)
        = (ec.columns.get? i).map (fun c =>
            { name := c.colName
              type := columnTypeOfDfType nodeC.type
              doc_string := c.docOr nodeC.doc_string
              callabl := columnExtractor nodeC.name c.colName
              input_types := [(nodeC.name, nodeC.type)]
              tags := nodeC.tags }) := by
      unfold extractColumnsExpand
      rw [List.get?_cons_succ, List.get?_map]
    rw [h1, List.get?_eq_get hic, hc]
    exact ⟨_, rfl, columnExtractor_absent nodeC.name c.colName kwc cols hkwc habsc⟩
  · exact ⟨"No such column: ",
      " produced by " ++ nodeC.name ++ ". " ++ "It only produced "
        ++ renderLabels (dfLabels cols),
      by simp [noSuchColumnMsg, String.append_assoc]⟩
  · exact ⟨"No such column: " ++ c.colName ++ " produced by " ++ nodeC.name ++ ". "
        ++ "It only produced ", "",
      by simp [noSuchColumnMsg, String.append_assoc]⟩
  · simp [extractFieldsExpand]
  · have h1 : (extractFieldsExpand ef nodeF).get? (j + 1)
        = (ef.fields.get? j).map (fun fld =>
            { name := fld.1
              type := fld.2
              doc_string := nodeF.doc_string
              callabl := fieldExtractor nodeF.name fld.1
              input_types := [(nodeF.name, Ty.dict)]
              tags := nodeF.tags }) := by
      unfold extractFieldsExpand
      rw [List.get?_cons_succ, List.get?_map]
    rw [h1, List.get?_eq_get hjf, hfld]
    exact ⟨_, rfl, fieldExtractor_absent nodeF.name fld.1 kwf fs hkwf habsf⟩
  · exact ⟨"No such field: ",
      " produced by " ++ nodeF.name ++ ". " ++ "It only produced " ++ pyReprKeys (keysA fs),
      by simp [noSuchFieldMsg, String.append_assoc]⟩
  · exact ⟨"No such field: " ++ fld.1 ++ " produced by " ++ nodeF.name ++ ". "
        ++ "It only produced ", "",
      by simp [noSuchFieldMsg, String.append_assoc]⟩

/-- Witness for C5: extracting the missing column c from a dataframe with
only c1, and the missing field x from a dict with only y, raises the
documented extraction errors while expansion yields two nodes each. -/
theorem C5_extraction_error_witness :
    ((extractColumnsExpand exampleExtractColumns exampleDfNode).length = 2
      ∧ (∃ nd, (extractColumnsExpand exampleExtractColumns exampleDfNode).get? 1 = some nd
          ∧ nd.callabl [("t", .vdf [(.str "c1", .vseries [.vint 1])])]
            = .error (.invalidDecorator
                (noSuchColumnMsg "c" "t" (dfLabels [(.str "c1", .vseries [.vint 1])]))))
      ∧ (∃ s1 s2, noSuchColumnMsg "c" "t" (dfLabels [(.str "c1", .vseries [.vint 1])])
          = s1 ++ "c" ++ s2)
      ∧ (∃ s3 s4, noSuchColumnMsg "c" "t" (dfLabels [(.str "c1", .vseries [.vint 1])])
          = s3 ++ renderLabels (dfLabels [(.str "c1", .vseries [.vint 1])]) ++ s4))
    ∧ ((extractFieldsExpand exampleExtractFields exampleFieldsNode).length = 2
      ∧ (∃ nd2, (extractFieldsExpand exampleExtractFields exampleFieldsNode).get? 1 = some nd2
          ∧ nd2.callabl [("d", .vdict [("y", .vint 9)])]
            = .error (.invalidDecorator (noSuchFieldMsg "x" "d" (keysA [("y", Val.vint 9)]))))
      ∧ (∃ t1 t2, noSuchFieldMsg "x" "d" (keysA [("y", Val.vint 9)]) = t1 ++ "x" ++ t2)
      ∧ (∃ t3 t4, noSuchFieldMsg "x" "d" (keysA [("y", Val.vint 9)])
          = t3 ++ pyReprKeys (keysA [("y", Val.vint 9)]) ++ t4)) :=
  C5_extraction_error exampleDfNode exampleExtractColumns rfl 0 (by decide) (.bare "c") rfl
    [(.str "c1", .vseries [.vint 1])] [("t", .vdf [(.str "c1", .vseries [.vint 1])])]
    rfl (by decide)
    exampleFieldsNode exampleExtractFields rfl 0 (by decide) ("x", .tint) rfl
    [("y", .vint 9)] [("d", .vdict [("y", .vint 9)])] rfl rfl

/-- C6 evaluated at the failing input: with fill_with = 0 and the column
declared as the tuple (c2, doc2) absent from the produced table, the
container node's callable succeeds but creates a column labelled by the
tuple itself — the declared column c2 is still absent (its string label is
not among the labels), and the c2 extractor node then raises at invocation.
The fill loop of `df_generator` checks and fills `col` without unpacking
the tuple, unlike the extraction loop below it. -/
theorem C6_fill_tuple_label_bug :
    (∃ nd0, (extractColumnsExpand cex6Extract cex6Node).get? 0 = some nd0
      ∧ nd0.callabl [] = .ok (.vdf [(.str "c1", .vseries [.vint 1, .vint 2]),
          (.pair "c2" "doc2", .vseries [.vint 0, .vint 0])]))
    ∧ (dfLabels [(.str "c1", Val.vseries [.vint 1, .vint 2]),
        (.pair "c2" "doc2", Val.vseries [.vint 0, .vint 0])]).contains (Label.str "c2")
        = false
    ∧ ∃ nd1, (extractColumnsExpand cex6Extract cex6Node).get? 1 = some nd1
      ∧ nd1.callabl [("out", .vdf [(.str "c1", .vseries [.vint 1, .vint 2]),
          (.pair "c2" "doc2", .vseries [.vint 0, .vint 0])])]
        = .error (.invalidDecorator (noSuchColumnMsg "c2" "out"
            [.str "c1", .pair "c2" "doc2"])) := by
  exact ⟨⟨_, rfl, rfl⟩, by decide, _, rfl, rfl⟩

/-- C4 evaluated at the failing input: although reassign_columns is False,
the intermediate container node produced by the expansion still overwrites
the table's column labels a, b with the declared output names x, y — the
expansion always wraps the node's callable in `wrapper_fn`, and the
`fn_to_call` selected by the flag is passed on only as the source of the
docstring. -/
theorem C4_reassign_columns_bug :
    cex4Pec.reassign_columns = false
    ∧ ((pecExpand cex4Pec cex4Node cex4Fn none).toOption.bind List.head?).map
        (fun nd => nd.callabl [])
      = some (.ok (.vdf [(Label.str "x", Val.vseries [Val.vint 1]),
          (Label.str "y", Val.vseries [Val.vint 2])]))
    ∧ cex4Fn [] = .ok (.vdf [(Label.str "a", Val.vseries [Val.vint 1]),
        (Label.str "b", Val.vseries [Val.vint 2])]) :=
  ⟨rfl, rfl, rfl⟩

/-! ### Claim C7: construction-time rejection of non-dependency values -/

/-- C7: any non-dependency value anywhere in any output's parameter mapping
makes `parameterize.__init__` raise an InvalidDecoratorException; the
constructor takes no function argument, so this happens before any function
is inspected. -/
theorem C7_init_rejects_non_dependency (raw : List (String × RawParamSpec))
    (hbad : ∃ x ∈ raw, ∃ q ∈ x.2.mapping, ∃ v, q.2 = RawDep.notADep v) :
    ∃ m, parameterizeInit raw = .error (.invalidDecorator m) := by
  obtain ⟨x, hx, q, hq, v, hv⟩ := hbad
  have hmem : v ∈ badValues raw := by
    unfold badValues
    rw [List.mem_flatten]
    refine ⟨_, List.mem_map.mpr ⟨x, hx, rfl⟩, ?_⟩
    rw [List.mem_filterMap]
    exact ⟨q, hq, by rw [hv]⟩
  have hne : ¬(badValues raw).isEmpty = true := by
    intro hc
    rw [List.isEmpty_iff] at hc
    rw [hc] at hmem
    cases hmem
  refine ⟨"@parameterize must specify a dependency type -- either source() or value()."
      ++ "The following are not allowed: " ++ pyReprList (badValues raw) ++ ".", ?_⟩
  unfold parameterizeInit
  rw [Bool.eq_false_iff.mpr hne]
  rfl

/-- Witness for C7: a raw integer in place of a dependency is rejected. -/
theorem C7_init_rejects_non_dependency_witness :
    ∃ m, parameterizeInit
        [("out", RawParamSpec.plain [("p", RawDep.notADep (.vint 3))])]
      = .error (.invalidDecorator m) :=
  C7_init_rejects_non_dependency _
    ⟨("out", RawParamSpec.plain [("p", RawDep.notADep (.vint 3))]),
      List.mem_cons_self _ _,
      ("p", RawDep.notADep (.vint 3)), List.mem_cons_self _ _, .vint 3, rfl⟩

/-! ### Claim C8: convenience-form constructors -/

/-- C8 (amended): the sources-form rejects an empty parameterization and any
empty per-output mapping with a ValueError before delegating, a kind
distinct from the InvalidDecoratorException of parameterization-level
validation (which, absent a docstring template, is the only kind validation
raises); the values-form checks only the container shape of its keys,
raising the same InvalidDecoratorException kind, and accepts an empty
mapping without error. -/
theorem C8_convenience_validation :
    (∀ (parameter : String) (assigned : List (AssignedKey × Val)),
      (∃ x ∈ assigned, ∃ k, x.1 = AssignedKey.bare k) →
      ∃ m, parameterizeValuesInit parameter assigned = .error (.invalidDecorator m))
    ∧ parameterizeSourcesInit []
        = .error (.valueError "Cannot pass empty/None dictionary to parameterize_sources")
    ∧ (∀ (pzs : List (String × List (String × String))) (x : String × List (String × String)),
      x ∈ pzs → x.2 = [] →
      ∃ m, parameterizeSourcesInit pzs = .error (.valueError m))
    ∧ (∀ parameter : String, parameterizeValuesInit parameter []
        = .ok { parametrization := [], specified_docstrings := [] })
    ∧ (∀ (p : Parameterize) (fnQualName : String) (fnParams : List String),
      parameterizeValidate p none fnQualName fnParams = .ok ()
      ∨ ∃ m, parameterizeValidate p none fnQualName fnParams
          = .error (.invalidDecorator m))
    ∧ (∀ m1 m2 : String, Err.kindName (.valueError m1) ≠ Err.kindName (.invalidDecorator m2)) := by
  refine ⟨?_, rfl, ?_, fun parameter => rfl, ?_,
    fun m1 m2 h => absurd (show ("ValueError" : String) = "InvalidDecoratorException" from h)
      (by decide)⟩
  · intro parameter assigned hex
    obtain ⟨x, hx, k, hk⟩ := hex
    have hs : (assigned.find? isBareKey).isSome := by
      rw [List.find?_isSome]
      refine ⟨x, hx, ?_⟩
      unfold isBareKey
      rw [hk]
    rcases hfind : assigned.find? isBareKey with _ | y
    · rw [hfind] at hs
      cases hs
    · refine ⟨"assigned_output key is incorrect. The parameterized decorator needs a dict of "
          ++ "[name, doc string] -> value to function.", ?_⟩
      unfold parameterizeValuesInit
      rw [hfind]
  · intro pzs x hx hempty
    have hne : pzs.isEmpty = false := by
      rcases pzs with _ | ⟨a, t⟩
      · cases hx
      · rfl
    have hs : (pzs.find? (fun x => x.2.isEmpty)).isSome := by
      rw [List.find?_isSome]
      exact ⟨x, hx, by rw [hempty]; rfl⟩
    rcases hfind : pzs.find? (fun x => x.2.isEmpty) with _ | y
    · rw [hfind] at hs
      cases hs
    · refine ⟨"Error, " ++ y.1 ++ " has a none/empty dictionary mapping. Please fill it.", ?_⟩
      unfold parameterizeSourcesInit
      rw [hne, hfind]
      rfl
  · intro p fnQualName fnParams
    have hfmt : ∀ o : String, ∃ r, formatDocString p none o = .ok r := by
      intro o
      unfold formatDocString
      rcases hov : getA o p.specified_docstrings with _ | d
      · exact ⟨none, rfl⟩
      · exact ⟨some d, rfl⟩
    obtain ⟨rs, hrs⟩ := @emapM_all_ok _ _ (fun opz => formatDocString p none opz.1)
      p.parametrization (fun a _ => hfmt a.1)
    unfold parameterizeValidate
    rw [hrs]
    by_cases hres : fnParams.contains "output_name" = true
    · right
      refine ⟨"Error function " ++ fnQualName ++ " cannot have `output_name` "
          ++ "as a parameter it is reserved.", ?_⟩
      rw [if_pos hres]
    · rw [if_neg hres]
      rcases hm : (p.parametrization.map (fun opz => keysA opz.2)).flatten.filter
          (fun q => !fnParams.contains q) with _ | ⟨m0, t⟩
      · left
        rw [hm]
      · right
        refine ⟨"Parametrization is invalid: the following parameters do not appear in the function itself: "
            ++ String.intercalate ", " (m0 :: t).dedup, ?_⟩
        rw [hm]

/-- Counterexample to C8 as stated: the values-form accepts an empty
mapping without any error, although the claim says malformed/empty
arguments raise before delegation; and when it does raise (bare key), its
error kind equals the kind of a parameterization-level validation failure
(a missing target parameter), not a distinct one. -/
theorem C8_counterexample :
    parameterizeValuesInit "x" [] = .ok { parametrization := [], specified_docstrings := [] }
    ∧ errKind (parameterizeValuesInit "x" [(AssignedKey.bare "k", Val.vint 3)])
        = errKind (parameterizeValidate
            { parametrization := [("o", [("missing", .upstream "s")])]
              specified_docstrings := [] } none "m.f" ["a"])
    ∧ errKind (parameterizeValuesInit "x" [(AssignedKey.bare "k", Val.vint 3)])
        = some "InvalidDecoratorException" :=
  ⟨rfl, rfl, rfl⟩

/-- Witness for C8: a bare key makes the values-form raise an
InvalidDecoratorException; an empty inner mapping makes the sources-form
raise a ValueError; an empty values-form mapping is accepted; validation
with no docstring yields only ok or InvalidDecoratorException; the two
kinds differ. -/
theorem C8_convenience_validation_witness :
    (∃ m, parameterizeValuesInit "x" [(AssignedKey.bare "k", Val.vint 3)]
      = .error (.invalidDecorator m))
    ∧ (∃ m, parameterizeSourcesInit [("o", ([] : List (String × String)))]
      = .error (.valueError m))
    ∧ parameterizeValuesInit "x" [] = .ok { parametrization := [], specified_docstrings := [] }
    ∧ Err.kindName (.valueError "a") ≠ Err.kindName (.invalidDecorator "b") := by
  refine ⟨?_, ?_, ?_, ?_⟩
  · exact C8_convenience_validation.1 "x" [(AssignedKey.bare "k", Val.vint 3)]
      ⟨(AssignedKey.bare "k", Val.vint 3), List.mem_cons_self _ _, "k", rfl⟩
  · exact C8_convenience_validation.2.2.1 [("o", ([] : List (String × String)))]
      ("o", ([] : List (String × String))) (List.mem_cons_self _ _) rfl
  · exact C8_convenience_validation.2.2.2.1 "x"
  · exact C8_convenience_validation.2.2.2.2.2 "a" "b"

end Hamilton
